import Mathlib

set_option maxRecDepth 4000

set_option allowUnsafeReducibility true in
attribute [semireducible] Rat.add Rat.mul Rat.sub Rat.inv

/-- Extended numeric values mirroring Python binary64 semantics where the
scripts can produce non-finite results (infinite scale factors). Finite
values are modelled as exact rationals. -/
inductive PFloat where
  | fin (q : ℚ)
  | inf
  | ninf
  | nan
deriving DecidableEq, Repr

namespace PFloat

/-- IEEE-style strict comparison: any comparison with nan is false. -/
def lt : PFloat → PFloat → Bool
  | fin a, fin b => decide (a < b)
  | fin _, inf => true
  | ninf, fin _ => true
  | ninf, inf => true
  | _, _ => false

/-- IEEE-style inequality as used by Python `!=`: nan is unequal to everything. -/
def ne : PFloat → PFloat → Bool
  | fin a, fin b => decide (a ≠ b)
  | inf, inf => false
  | ninf, ninf => false
  | nan, _ => true
  | _, nan => true
  | _, _ => true

/-- Subtraction with IEEE special cases. -/
def sub : PFloat → PFloat → PFloat
  | fin a, fin b => fin (a - b)
  | nan, _ => nan
  | _, nan => nan
  | inf, inf => nan
  | inf, _ => inf
  | ninf, ninf => nan
  | ninf, _ => ninf
  | fin _, inf => ninf
  | fin _, ninf => inf

/-- Multiplication with IEEE special cases (0 * inf = nan). -/
def mul : PFloat → PFloat → PFloat
  | fin a, fin b => fin (a * b)
  | nan, _ => nan
  | _, nan => nan
  | inf, inf => inf
  | inf, ninf => ninf
  | ninf, inf => ninf
  | ninf, ninf => inf
  | fin a, inf => if a > 0 then inf else if a < 0 then ninf else nan
  | inf, fin a => if a > 0 then inf else if a < 0 then ninf else nan
  | fin a, ninf => if a > 0 then ninf else if a < 0 then inf else nan
  | ninf, fin a => if a > 0 then ninf else if a < 0 then inf else nan

/-- Division.  In the scripts this is only reached with a finite, nonzero
divisor (guarded by `> 1e-6`); the remaining cases follow IEEE. -/
def div : PFloat → PFloat → PFloat
  | fin a, fin b => fin (a / b)
  | nan, _ => nan
  | _, nan => nan
  | inf, fin _ => inf
  | ninf, fin _ => ninf
  | fin _, inf => fin 0
  | fin _, ninf => fin 0
  | _, _ => nan

end PFloat

/-- Python `min` over a nonempty list: keep the accumulator unless a later
element compares strictly below it. -/
def pyFoldMin (v : PFloat) (vs : List PFloat) : PFloat :=
  vs.foldl (fun acc w => if PFloat.lt w acc then w else acc) v

/-- Python `max` over a nonempty list. -/
def pyFoldMax (v : PFloat) (vs : List PFloat) : PFloat :=
  vs.foldl (fun acc w => if PFloat.lt acc w then w else acc) v

/-- Python `min(iterable, default=d)`. -/
def pyMinD (l : List PFloat) (d : PFloat) : PFloat :=
  match l with
  | [] => d
  | v :: vs => pyFoldMin v vs

/-- Python `max(iterable, default=d)`. -/
def pyMaxD (l : List PFloat) (d : PFloat) : PFloat :=
  match l with
  | [] => d
  | v :: vs => pyFoldMax v vs

/-- A Python dict entry for a numeric command field: the key may be absent
(`missing`), present with value `None` (`null`, as the builder methods'
default arguments produce), or present with a numeric value (`num`). -/
inductive PyField where
  | missing
  | null
  | num (v : PFloat)
deriving DecidableEq, Repr

namespace PyField

/-- Python `'k' in cmd` : the key is present in the dict. -/
def present : PyField → Bool
  | missing => false
  | _ => true

/-- Python `cmd.get('k') is not None` combined with the lookup: the numeric
value if the key is present and not `None`. -/
def value : PyField → Option PFloat
  | num v => some v
  | _ => none

end PyField

/-- One command record of the G-code generator: the `cmd` kind tag plus the
open set of optional fields the builder methods can set. -/
structure Command where
  cmd : String
  x : PyField := PyField.missing
  y : PyField := PyField.missing
  z : PyField := PyField.missing
  i : PyField := PyField.missing
  j : PyField := PyField.missing
  f : PyField := PyField.missing
  s : Option ℤ := none
  t : Option ℤ := none
  p : Option ℚ := none
  text : Option String := none
  gcode : Option String := none
  comment : Option String := none
deriving DecidableEq, Repr

/-- Wrap a plain rational as a present numeric field value. -/
def qv (q : ℚ) : PyField := PyField.num (PFloat.fin q)

/-- `add_g0(x=…, y=…, z=…)`: the three keys are always present (defaulting
to `None`). -/
def add_g0 (x y z : PyField) : Command := { cmd := "G0", x := x, y := y, z := z }

/-- `add_g1(x=…, y=…, z=…, f=…)`. -/
def add_g1 (x y z f : PyField) : Command := { cmd := "G1", x := x, y := y, z := z, f := f }

/-- `add_g2(x=…, y=…, i=…, j=…, f=…)`; note the `z` key is absent. -/
def add_g2 (x y i j f : PyField) : Command :=
  { cmd := "G2", x := x, y := y, i := i, j := j, f := f }

/-- `add_m3(s)`. -/
def add_m3 (s : ℤ) : Command := { cmd := "M3", s := some s }

/-- `add_m5()`. -/
def add_m5 : Command := { cmd := "M5" }

/-- `add_m6(t, comment)`. -/
def add_m6 (t : ℤ) (comment : String) : Command :=
  { cmd := "M6", t := some t, comment := some comment }

/-- `add_dwell(p)`. -/
def add_dwell (p : ℚ) : Command := { cmd := "G4", p := some p }

/-- `add_comment(text)`. -/
def add_comment (text : String) : Command := { cmd := "comment", text := some text }

/-- `add_raw(gcode)`. -/
def add_raw (gcode : String) : Command := { cmd := "raw", gcode := some gcode }

/- ## Serializer (`GCodeGenerator._write_file`) -/

/-- Fractional digits of `%.3f`, zero-padded to width 3. -/
def digits3 (n : ℕ) : String :=
  if n < 10 then "00" ++ toString n else if n < 100 then "0" ++ toString n else toString n

/-- Python `f"{q:.3f}"` on a finite value, modelled with round-half-up on the
exact rational (Python rounds the underlying binary64; no claim depends on the
tie-breaking rule). -/
def fmt3Q (q : ℚ) : String :=
  let n : ℤ := Rat.floor (q * 1000 + 1/2)
  let m : ℕ := n.natAbs
  (if n < 0 then "-" else "") ++ toString (m / 1000) ++ "." ++ digits3 (m % 1000)

/-- Python `f"{v:.3f}"` including the non-finite renderings. -/
def fmt3 : PFloat → String
  | PFloat.fin q => fmt3Q q
  | PFloat.inf => "inf"
  | PFloat.ninf => "-inf"
  | PFloat.nan => "nan"

/-- Python `f"{q:.1f}"` on a finite value (used for dwell times). -/
def fmt1Q (q : ℚ) : String :=
  let n : ℤ := Rat.floor (q * 10 + 1/2)
  let m : ℕ := n.natAbs
  (if n < 0 then "-" else "") ++ toString (m / 10) ++ "." ++ toString (m % 10)

/-- Python `f"{feed}"` (no format spec): the generators only pass integral
feed rates, rendered without a decimal point. -/
def fmtFeed : PFloat → String
  | PFloat.fin q => if q.den = 1 then toString q.num else toString q.num ++ "/" ++ toString q.den
  | PFloat.inf => "inf"
  | PFloat.ninf => "-inf"
  | PFloat.nan => "nan"

/-- The `line_parts` built by `_write_file` before the modal feed-rate block:
command keyword, then T, S, P, then X, Y, Z, I, J (each only if the key is
present with a non-`None` value; T/S/P on key presence alone). -/
def parts_pre (c : Command) : List String :=
  [c.cmd]
  ++ (match c.t with | some t => ["T" ++ toString t] | none => [])
  ++ (match c.s with | some s => ["S" ++ toString s] | none => [])
  ++ (match c.p with | some p => ["P" ++ fmt1Q p] | none => [])
  ++ (match c.x with | PyField.num v => ["X" ++ fmt3 v] | _ => [])
  ++ (match c.y with | PyField.num v => ["Y" ++ fmt3 v] | _ => [])
  ++ (match c.z with | PyField.num v => ["Z" ++ fmt3 v] | _ => [])
  ++ (match c.i with | PyField.num v => ["I" ++ fmt3 v] | _ => [])
  ++ (match c.j with | PyField.num v => ["J" ++ fmt3 v] | _ => [])

/-- Python `current_feed_rate != feed` where `current_feed_rate` may be `None`. -/
def feedChanged (cur : Option PFloat) (v : PFloat) : Bool :=
  match cur with
  | none => true
  | some w => PFloat.ne w v

/-- The modal feed-rate block of `_write_file`: append an F token and update
the tracked value exactly when the command carries a feed rate that differs
from the last emitted one. -/
def feed_step (cur : Option PFloat) (c : Command) : List String × Option PFloat :=
  match c.f with
  | PyField.num v =>
    if feedChanged cur v then (parts_pre c ++ ["F" ++ fmtFeed v], some v) else (parts_pre c, cur)
  | _ => (parts_pre c, cur)

/-- A single space, the join separator of `" ".join(line_parts)`. -/
def strSpace : String := " "

/-- Join the parts and append the trailing inline comment when present and
non-empty (Python truthiness of the comment string). -/
def render_line (c : Command) (parts : List String) : String :=
  let line := String.intercalate strSpace parts
  match c.comment with
  | some com => if com = "" then line else line ++ "  ; " ++ com
  | none => line

/-- The body of `_write_file`, threading the modal feed-rate state through the
command list; comment and raw commands are written on dedicated line formats
without touching the modal state. -/
def write_loop (cur : Option PFloat) : List Command → List String
  | [] => []
  | c :: rest =>
    if c.cmd = "comment" then
      ("; " ++ (match c.text with | some txt => txt | none => "")) :: write_loop cur rest
    else if c.cmd = "raw" then
      (match c.gcode with | some gl => gl | none => "") :: write_loop cur rest
    else
      match feed_step cur c with
      | (parts, cur2) => render_line c parts :: write_loop cur2 rest

/-- `_write_file`: each serialization run starts with no last-emitted feed
rate (`current_feed_rate = None`). -/
def write_file (cmds : List Command) : List String := write_loop none cmds

/- ## Bounding-box scaler (`GCodeGenerator.generate_and_write`) -/

/-- Target work envelope: width (X), depth (Y), height (Z). -/
structure WorkEnvelope where
  width : ℚ
  depth : ℚ
  height : ℚ
deriving DecidableEq, Repr

/-- `any(k in cmd for k in ['x', 'y', 'z'])`: some coordinate key is present
(possibly with value `None`). -/
def hasCoordKey (c : Command) : Bool := c.x.present || c.y.present || c.z.present

/-- `coords = [cmd for cmd in self.commands if any(k in cmd ...)]`. -/
def coords (cmds : List Command) : List Command := cmds.filter hasCoordKey

/-- The present (non-`None`) x values of the coordinate-bearing commands. -/
def x_vals (cmds : List Command) : List PFloat :=
  (coords cmds).filterMap (fun c => c.x.value)

/-- The present y values. -/
def y_vals (cmds : List Command) : List PFloat :=
  (coords cmds).filterMap (fun c => c.y.value)

/-- The present z values. -/
def z_vals (cmds : List Command) : List PFloat :=
  (coords cmds).filterMap (fun c => c.z.value)

/-- `min((c['x'] ...), default=0)`. -/
def min_x (cmds : List Command) : PFloat := pyMinD (x_vals cmds) (PFloat.fin 0)

/-- `max((c['x'] ...), default=0)`. -/
def max_x (cmds : List Command) : PFloat := pyMaxD (x_vals cmds) (PFloat.fin 0)

/-- `min((c['y'] ...), default=0)`. -/
def min_y (cmds : List Command) : PFloat := pyMinD (y_vals cmds) (PFloat.fin 0)

/-- `max((c['y'] ...), default=0)`. -/
def max_y (cmds : List Command) : PFloat := pyMaxD (y_vals cmds) (PFloat.fin 0)

/-- `min((c['z'] ...), default=0)`. -/
def min_z (cmds : List Command) : PFloat := pyMinD (z_vals cmds) (PFloat.fin 0)

/-- `max((c['z'] ...), default=0)`. -/
def max_z (cmds : List Command) : PFloat := pyMaxD (z_vals cmds) (PFloat.fin 0)

/-- `original_width = max_x - min_x`. -/
def original_width (cmds : List Command) : PFloat := PFloat.sub (max_x cmds) (min_x cmds)

/-- `original_depth = max_y - min_y`. -/
def original_depth (cmds : List Command) : PFloat := PFloat.sub (max_y cmds) (min_y cmds)

/-- `original_height = max_z - min_z`. -/
def original_height (cmds : List Command) : PFloat := PFloat.sub (max_z cmds) (min_z cmds)

/-- The comparison threshold `1e-6` of the scale-candidate guards. -/
def epsGuard : ℚ := 1/1000000

/-- `scale_x = width / original_width if original_width > 1e-6 else inf`. -/
def scale_x (env : WorkEnvelope) (cmds : List Command) : PFloat :=
  if PFloat.lt (PFloat.fin epsGuard) (original_width cmds) then
    PFloat.div (PFloat.fin env.width) (original_width cmds)
  else PFloat.inf

/-- `scale_y = depth / original_depth if original_depth > 1e-6 else inf`. -/
def scale_y (env : WorkEnvelope) (cmds : List Command) : PFloat :=
  if PFloat.lt (PFloat.fin epsGuard) (original_depth cmds) then
    PFloat.div (PFloat.fin env.depth) (original_depth cmds)
  else PFloat.inf

/-- `scale_z = height / original_height if original_height > 1e-6 else inf`. -/
def scale_z (env : WorkEnvelope) (cmds : List Command) : PFloat :=
  if PFloat.lt (PFloat.fin epsGuard) (original_height cmds) then
    PFloat.div (PFloat.fin env.height) (original_height cmds)
  else PFloat.inf

/-- `scale_factor = min(s for s in [scale_x, scale_y, scale_z] if s > 0)`.
Note the filter keeps infinite candidates (`inf > 0` is true in Python); the
result is `none` exactly when the filtered list is empty, where Python raises
`ValueError`. -/
def scale_factor (env : WorkEnvelope) (cmds : List Command) : Option PFloat :=
  match ([scale_x env cmds, scale_y env cmds, scale_z env cmds]).filter
      (fun c => PFloat.lt (PFloat.fin 0) c) with
  | [] => none
  | v :: vs => some (pyFoldMin v vs)

/-- The per-command rewrite of the transform loop: present x/y/z values become
`(v - min_axis) * scale_factor`, present i/j values become `v * scale_factor`,
everything else is copied unchanged. -/
def transform_command (mx my mz s : PFloat) (c : Command) : Command :=
  { c with
    x := match c.x with | PyField.num v => PyField.num (PFloat.mul (PFloat.sub v mx) s) | w => w
    y := match c.y with | PyField.num v => PyField.num (PFloat.mul (PFloat.sub v my) s) | w => w
    z := match c.z with | PyField.num v => PyField.num (PFloat.mul (PFloat.sub v mz) s) | w => w
    i := match c.i with | PyField.num v => PyField.num (PFloat.mul v s) | w => w
    j := match c.j with | PyField.num v => PyField.num (PFloat.mul v s) | w => w }

/-- The command sequence `generate_and_write` hands to `_write_file`: the
original sequence when no command has a coordinate key, otherwise the
transformed copy; `none` models the `ValueError` of an empty candidate
minimum. -/
def scaled_commands (env : WorkEnvelope) (cmds : List Command) : Option (List Command) :=
  if (coords cmds).isEmpty then some cmds
  else
    match scale_factor env cmds with
    | none => none
    | some s =>
      some (cmds.map (transform_command (min_x cmds) (min_y cmds) (min_z cmds) s))

/-- `generate_and_write` up to file I/O: the lines written to the output file. -/
def generate_and_write (env : WorkEnvelope) (cmds : List Command) : Option (List String) :=
  (scaled_commands env cmds).map write_file

/- ## Text engraving generator (`generate_text_engraving`) -/

/-- The `char_patterns` glyph table: normalized stroke points per supported
character (Python float literals as exact rationals). -/
def char_patterns (ch : Char) : Option (List (ℚ × ℚ)) :=
  if ch = 'g' then
    some [(2/5, 3/5), (2/5, 4/5), (1/5, 4/5), (0, 3/5), (0, 2/5), (0, 1/5),
          (1/5, 0), (2/5, 0), (2/5, 1/5), (2/5, -1/5), (1/5, -1/5), (0, -1/5)]
  else if ch = 'h' then
    some [(0, 0), (0, 1), (0, 1/2), (1/5, 1/2), (2/5, 1/2), (2/5, 0)]
  else if ch = 's' then
    some [(2/5, 4/5), (1/5, 4/5), (0, 3/5), (0, 1/2), (1/5, 2/5), (2/5, 2/5),
          (2/5, 1/5), (1/5, 0), (0, 0)]
  else if ch = 'e' then
    some [(0, 2/5), (2/5, 2/5), (2/5, 3/5), (1/5, 4/5), (0, 3/5), (0, 1/5),
          (1/5, 0), (2/5, 0)]
  else if ch = 'n' then
    some [(0, 0), (0, 4/5), (0, 1/2), (1/5, 4/5), (2/5, 4/5), (2/5, 0)]
  else if ch = 'd' then
    some [(2/5, 0), (2/5, 1), (2/5, 4/5), (1/5, 4/5), (0, 3/5), (0, 1/5),
          (1/5, 0), (2/5, 0)]
  else if ch = 'r' then
    some [(0, 0), (0, 4/5), (0, 1/2), (1/5, 4/5), (2/5, 3/5)]
  else none

/-- The inner point loop of one rendered character: pen-up rapid to the first
point then plunge, pen-down linear moves through the rest; the loop breaks
once the operation count reaches the target (after still emitting the final
pen-up and cursor advance in the caller). -/
def text_points (char_size char_x start_y : ℚ) (target : ℕ) :
    List (ℚ × ℚ) → Bool → ℕ → List Command × ℕ
  | [], _, op => ([], op)
  | pt :: rest, first, op =>
    let x := char_x + pt.1 * char_size
    let y := start_y + pt.2 * char_size
    let emitted : List Command :=
      if first then
        [add_g0 (qv x) (qv y) PyField.null,
         add_g1 PyField.null PyField.null (qv (-3/10)) (qv 200)]
      else [add_g1 (qv x) (qv y) PyField.null (qv 400)]
    let op2 := op + 1
    if target ≤ op2 then (emitted, op2)
    else
      let next := text_points char_size char_x start_y target rest false op2
      (emitted ++ next.1, next.2)

/-- The per-character loop: a character is rendered only when it is in the
glyph table and the operation budget is not exhausted; the pen-up move and the
cursor advance `char_x += char_size * 1.2` happen inside that conditional. -/
def text_loop (char_size start_y : ℚ) (target : ℕ) :
    List Char → ℚ → ℕ → List Command
  | [], _, _ => []
  | ch :: rest, char_x, op =>
    match char_patterns ch with
    | some pattern =>
      if op < target then
        let res := text_points char_size char_x start_y target pattern true op
        res.1 ++ [add_g0 PyField.null PyField.null (qv 2)]
          ++ text_loop char_size start_y target rest (char_x + char_size * (6/5)) res.2
      else text_loop char_size start_y target rest char_x op
    | none => text_loop char_size start_y target rest char_x op

/-- `generate_text_engraving`; the randomized spindle speed is taken as a
parameter. -/
def generate_text_engraving (text : List Char) (start_x start_y char_size : ℚ)
    (operations_count : ℕ) (spindle_speed : ℤ) : List Command :=
  [add_comment ("===== TEXT ENGRAVING '" ++ String.mk text ++ "' - "
     ++ toString operations_count ++ " operations ====="),
   add_m3 spindle_speed, add_dwell 2]
  ++ text_loop char_size start_y operations_count text start_x 0
  ++ [add_g0 PyField.null PyField.null (qv 25), add_m5, add_raw ""]

/- ## Grid generator (`generate_grid_pattern`) -/

/-- The binary64 values of `math.sin(k * math.pi / 4)` for the wave
sub-pattern, as exact rationals. -/
def pySin45 (k : ℕ) : ℚ :=
  if k = 0 then 0
  else if k = 1 then 1592262918131443/2251799813685248
  else if k = 2 then 1
  else if k = 3 then 6369051672525773/9007199254740992
  else if k = 4 then 4967757600021511/40564819207303340847894502572032
  else if k = 5 then -1592262918131443/2251799813685248
  else if k = 6 then -1
  else if k = 7 then -3184525836262887/4503599627370496
  else 0

/-- One grid cell: the initial plunge when the cumulative count is zero, then
the sub-pattern selected by `op_count % 4`, returning the appended commands
and the updated count. -/
def grid_cell (start_x start_y step : ℚ) (i j : ℕ) (op : ℕ) : List Command × ℕ :=
  let x := start_x + (i : ℚ) * step
  let y := start_y + (j : ℚ) * step
  let pre : List Command :=
    if op = 0 then
      [add_g0 (qv x) (qv y) PyField.null,
       add_g1 PyField.null PyField.null (qv (-1)) (qv 300)]
    else []
  match op % 4 with
  | 0 =>
    (pre ++ [add_g1 (qv (x + step/2)) (qv y) PyField.null (qv 800),
             add_g1 (qv (x + step/2)) (qv (y + step/2)) PyField.null PyField.null,
             add_g1 (qv x) (qv (y + step/2)) PyField.null PyField.null,
             add_g1 (qv x) (qv y) PyField.null PyField.null], op + 4)
  | 1 =>
    let radius := step / 4
    let cx := x + step/4
    let cy := y + step/4
    (pre ++ [add_g0 (qv (cx + radius)) (qv cy) PyField.null,
             add_g2 (qv cx) (qv (cy + radius)) (qv (-radius)) (qv 0) PyField.null,
             add_g2 (qv (cx - radius)) (qv cy) (qv 0) (qv (-radius)) PyField.null,
             add_g2 (qv cx) (qv (cy - radius)) (qv radius) (qv 0) PyField.null,
             add_g2 (qv (cx + radius)) (qv cy) (qv 0) (qv radius) PyField.null], op + 4)
  | 2 =>
    (pre ++ [add_g1 (qv (x + step/2)) (qv (y + step/2)) PyField.null (qv 800),
             add_g1 (qv x) (qv (y + step/2)) PyField.null PyField.null,
             add_g1 (qv x) (qv y) PyField.null PyField.null], op + 3)
  | _ =>
    (pre ++ (List.range 8).map (fun (k : ℕ) =>
       add_g1 (qv (x + (k : ℚ) * step/8))
              (qv (y + step/4 + (step/4) * pySin45 k)) PyField.null (qv 800)), op + 8)

/-- The inner `for j in range(count)` loop with its two `break` checks: on
entry to each iteration and immediately after a cell once the target is
reached. -/
def grid_inner (start_x start_y step : ℚ) (target i : ℕ) :
    List ℕ → ℕ → List Command × ℕ
  | [], op => ([], op)
  | j :: js, op =>
    if target ≤ op then ([], op)
    else
      let cell := grid_cell start_x start_y step i j op
      if target ≤ cell.2 then (cell.1, cell.2)
      else
        let rest := grid_inner start_x start_y step target i js cell.2
        (cell.1 ++ rest.1, rest.2)

/-- The outer `for i in range(count)` loop (it has no break of its own; once
the target is reached every inner loop returns immediately). -/
def grid_outer (start_x start_y step : ℚ) (target count : ℕ) :
    List ℕ → ℕ → List Command × ℕ
  | [], op => ([], op)
  | i :: irest, op =>
    let inner := grid_inner start_x start_y step target i (List.range count) op
    let rest := grid_outer start_x start_y step target count irest inner.2
    (inner.1 ++ rest.1, rest.2)

/-- The pattern body of `generate_grid_pattern` (with `step = size / count`),
returning the emitted pattern commands and the final `op_count`. -/
def grid_run (start_x start_y size : ℚ) (count operations_count : ℕ) :
    List Command × ℕ :=
  grid_outer start_x start_y (size / (count : ℚ)) operations_count count
    (List.range count) 0

/-- `generate_grid_pattern`; the randomized spindle speed is taken as a
parameter. -/
def generate_grid_pattern (start_x start_y size : ℚ) (count operations_count : ℕ)
    (spindle_speed : ℤ) : List Command :=
  [add_comment ("===== GRID PATTERN - " ++ toString operations_count
     ++ " operations ====="),
   add_m3 spindle_speed, add_dwell 2]
  ++ (grid_run start_x start_y size count operations_count).1
  ++ [add_g0 PyField.null PyField.null (qv 25), add_m5, add_raw ""]

/- ## Fractal generator (`generate_fractal_pattern`) -/

/-- The binary64 value of `math.sqrt(3)` as an exact rational. -/
def sqrt3 : ℚ := 3900231685776981/2251799813685248

/-- `koch_snowflake_segment`, recursing on the remaining depth
`max_iter - iteration` (the source guard `iteration >= max_iter` is the fuel
hitting zero); returns the emitted commands and the segment count. -/
def koch_snowflake_segment (start_x start_y end_x end_y : ℚ) :
    ℕ → List Command × ℕ
  | 0 => ([add_g1 (qv end_x) (qv end_y) PyField.null (qv 600)], 1)
  | fuel + 1 =>
    let dx := (end_x - start_x) / 3
    let dy := (end_y - start_y) / 3
    let x1 := start_x + dx
    let y1 := start_y + dy
    let x2 := start_x + 2*dx
    let y2 := start_y + 2*dy
    let peak_x := x1 + dx/2 - dy * sqrt3 / 2
    let peak_y := y1 + dy/2 + dx * sqrt3 / 2
    let r1 := koch_snowflake_segment start_x start_y x1 y1 fuel
    let r2 := koch_snowflake_segment x1 y1 peak_x peak_y fuel
    let r3 := koch_snowflake_segment peak_x peak_y x2 y2 fuel
    let r4 := koch_snowflake_segment x2 y2 end_x end_y fuel
    (r1.1 ++ r2.1 ++ r3.1 ++ r4.1, r1.2 + r2.2 + r3.2 + r4.2)

/-- Fuel-driven floor of the base-2 logarithm (structural so that concrete
runs evaluate); agrees with `Nat.log2` by `int_log2_eq_log2`. -/
def log2fuel : ℕ → ℕ → ℕ
  | 0, _ => 0
  | fuel + 1, n => if 2 ≤ n then log2fuel fuel (n / 2) + 1 else 0

/-- `int(math.log2(n))`: the floor of the base-2 logarithm of a positive
integer. -/
def int_log2 (n : ℕ) : ℕ := log2fuel n n

/-- `max_depth = min(depth, int(math.log2(remaining_ops)) if remaining_ops > 1
else 1)`. -/
def fractal_max_depth (depth remaining : ℕ) : ℕ :=
  min depth (if 1 < remaining then int_log2 remaining else 1)

/-- The binary64 values of `math.cos(2 * math.pi * i / 6)`. -/
def pyCos6 (i : ℕ) : ℚ :=
  if i = 0 then 1
  else if i = 1 then 4503599627370497/9007199254740992
  else if i = 2 then -2251799813685247/4503599627370496
  else if i = 3 then -1
  else if i = 4 then -1125899906842625/2251799813685248
  else if i = 5 then 4503599627370497/9007199254740992
  else 0

/-- The binary64 values of `math.sin(2 * math.pi * i / 6)`. -/
def pySin6 (i : ℕ) : ℚ :=
  if i = 0 then 0
  else if i = 1 then 3900231685776981/4503599627370496
  else if i = 2 then 7800463371553963/9007199254740992
  else if i = 3 then 4967757600021511/40564819207303340847894502572032
  else if i = 4 then -975057921444245/1125899906842624
  else if i = 5 then -3900231685776981/4503599627370496
  else 0

/-- The base-segment loop `for i in range(segments)` of
`generate_fractal_pattern`: stop once the cumulative segment count reaches the
target, otherwise recurse a Koch segment to the budget-capped depth. -/
def fractal_loop (x y size : ℚ) (depth target : ℕ) :
    List ℕ → ℕ → List Command × ℕ
  | [], total => ([], total)
  | i :: irest, total =>
    if target ≤ total then ([], total)
    else
      let end_x := x + size * pyCos6 i
      let end_y := y + size * pySin6 i
      let md := fractal_max_depth depth (target - total)
      let seg := koch_snowflake_segment x y end_x end_y md
      let rest := fractal_loop x y size depth target irest (total + seg.2)
      (seg.1 ++ rest.1, rest.2)

/-- The pattern body of `generate_fractal_pattern` over its 6 base segments,
returning the emitted commands and the final cumulative segment count. -/
def fractal_run (x y size : ℚ) (depth target : ℕ) : List Command × ℕ :=
  fractal_loop x y size depth target (List.range 6) 0

/-- `generate_fractal_pattern`; the randomized spindle speed is taken as a
parameter. -/
def generate_fractal_pattern (x y size : ℚ) (depth operations_count : ℕ)
    (spindle_speed : ℤ) : List Command :=
  [add_comment ("===== FRACTAL PATTERN - " ++ toString operations_count
     ++ " operations ====="),
   add_m3 spindle_speed, add_dwell 2,
   add_g0 (qv x) (qv y) PyField.null,
   add_g1 PyField.null PyField.null (qv (-1)) (qv 300)]
  ++ (fractal_run x y size depth operations_count).1
  ++ [add_g0 PyField.null PyField.null (qv 25), add_m5, add_raw ""]

/- ## Verification infrastructure -/

theorem int_log2_eq_log2 (n : ℕ) : int_log2 n = Nat.log2 n := by
  have key : ∀ fuel n, n ≤ fuel → log2fuel fuel n = Nat.log2 n := by
    intro fuel
    induction fuel with
    | zero =>
      intro n hn
      interval_cases n
      simp [log2fuel, Nat.log2]
    | succ fuel ih =>
      intro n hn
      rw [Nat.log2]
      by_cases h2 : 2 ≤ n
      · have hdiv : n / 2 ≤ fuel := by omega
        simp only [log2fuel, if_pos h2, ih _ hdiv, ge_iff_le, h2, if_pos]
      · simp [log2fuel, h2, if_neg]
  exact key n n le_rfl

theorem PFloat.lt_irrefl (v : PFloat) : PFloat.lt v v = false := by
  cases v <;> simp [PFloat.lt]

theorem PFloat.lt_nan_right (v : PFloat) : PFloat.lt v PFloat.nan = false := by
  cases v <;> rfl

/-- If `w` beat `v` in a Python `min` fold and the final result is not below
`w`, it is not below `v` either. -/
theorem PFloat.quasi_trans_lt (w v r : PFloat) (h1 : PFloat.lt w v = true)
    (h2 : PFloat.lt w r = false) : PFloat.lt v r = false := by
  cases w <;> cases v <;> cases r <;>
    simp_all [PFloat.lt] <;> linarith

/-- If `v` survived a comparison against `w` and the final result is not
below `v`, the result is not below `w` either (needs `v` comparable). -/
theorem PFloat.quasi_trans_ge (w v r : PFloat) (h0 : v ≠ PFloat.nan)
    (h1 : PFloat.lt w v = false) (h2 : PFloat.lt v r = false) :
    PFloat.lt w r = false := by
  cases w <;> cases v <;> cases r <;>
    simp_all [PFloat.lt] <;> linarith

theorem pyFoldMin_cons (v w : PFloat) (ws : List PFloat) :
    pyFoldMin v (w :: ws) = pyFoldMin (if PFloat.lt w v then w else v) ws := rfl

theorem pyFoldMin_nan (ws : List PFloat) : pyFoldMin PFloat.nan ws = PFloat.nan := by
  induction ws with
  | nil => rfl
  | cons w ws ih =>
    rw [pyFoldMin_cons,
      if_neg (show ¬PFloat.lt w PFloat.nan = true by simp [PFloat.lt_nan_right])]
    exact ih

/-- The Python `min` fold returns one of its inputs. -/
theorem pyFoldMin_mem (v : PFloat) (vs : List PFloat) : pyFoldMin v vs ∈ v :: vs := by
  induction vs generalizing v with
  | nil => simp [pyFoldMin]
  | cons w ws ih =>
    rw [pyFoldMin_cons]
    have h := ih (if PFloat.lt w v then w else v)
    rcases List.mem_cons.mp h with h1 | h1
    · rw [h1]
      split_ifs <;> simp
    · simp [List.mem_cons, h1]

/-- No input of the Python `min` fold compares strictly below its result. -/
theorem pyFoldMin_notlt (v : PFloat) (vs : List PFloat) :
    ∀ u, u ∈ v :: vs → PFloat.lt u (pyFoldMin v vs) = false := by
  induction vs generalizing v with
  | nil =>
    intro u hu
    rcases List.mem_cons.mp hu with h | h
    · rw [h]; exact PFloat.lt_irrefl v
    · simp at h
  | cons w ws ih =>
    intro u hu
    rw [pyFoldMin_cons]
    have hwin := ih (if PFloat.lt w v then w else v) _ (List.mem_cons_self _ _)
    rcases List.mem_cons.mp hu with h | h
    · subst h
      by_cases hb : PFloat.lt w u = true
      · rw [if_pos hb] at hwin ⊢
        exact PFloat.quasi_trans_lt w u _ hb hwin
      · rw [if_neg hb] at hwin ⊢
        exact hwin
    · rcases List.mem_cons.mp h with h1 | h1
      · subst h1
        by_cases hb : PFloat.lt u v = true
        · rw [if_pos hb] at hwin ⊢
          exact hwin
        · rw [if_neg hb] at hwin ⊢
          by_cases hv : v = PFloat.nan
          · subst hv
            rw [pyFoldMin_nan]
            exact PFloat.lt_nan_right u
          · exact PFloat.quasi_trans_ge u v _ hv (by simpa using hb) hwin
      · exact ih _ u (List.mem_cons_of_mem _ h1)

/-- The finite values of a `PFloat` list. -/
def finList (l : List PFloat) : List ℚ :=
  l.filterMap (fun v => match v with | PFloat.fin q => some q | _ => none)

theorem all_fin_eq_map (l : List PFloat) (h : ∀ v ∈ l, ∃ q, v = PFloat.fin q) :
    l = (finList l).map PFloat.fin := by
  induction l with
  | nil => rfl
  | cons v vs ih =>
    rcases h v (List.mem_cons_self _ _) with ⟨q, hq⟩
    subst hq
    have hrest := ih (fun u hu => h u (List.mem_cons_of_mem _ hu))
    simp only [finList, List.filterMap_cons, List.map_cons]
    exact congrArg _ hrest

/-- Rational counterpart of `pyMinD` on a list of finite values. -/
def qMinD (l : List ℚ) (d : ℚ) : ℚ :=
  match l with
  | [] => d
  | v :: vs => vs.foldl min v

/-- Rational counterpart of `pyMaxD` on a list of finite values. -/
def qMaxD (l : List ℚ) (d : ℚ) : ℚ :=
  match l with
  | [] => d
  | v :: vs => vs.foldl max v

theorem pyFoldMin_fin (a : ℚ) (l : List ℚ) :
    pyFoldMin (PFloat.fin a) (l.map PFloat.fin) = PFloat.fin (l.foldl min a) := by
  induction l generalizing a with
  | nil => rfl
  | cons w ws ih =>
    have hstep : (if PFloat.lt (PFloat.fin w) (PFloat.fin a) then PFloat.fin w
        else PFloat.fin a) = PFloat.fin (min a w) := by
      simp only [PFloat.lt, decide_eq_true_eq]
      split_ifs with hlt
      · exact congrArg _ (min_eq_right hlt.le).symm
      · exact congrArg _ (min_eq_left (not_lt.mp hlt)).symm
    rw [List.map_cons, pyFoldMin_cons, hstep, ih, List.foldl_cons]

theorem pyFoldMax_cons (v w : PFloat) (ws : List PFloat) :
    pyFoldMax v (w :: ws) = pyFoldMax (if PFloat.lt v w then w else v) ws := rfl

theorem pyFoldMax_fin (a : ℚ) (l : List ℚ) :
    pyFoldMax (PFloat.fin a) (l.map PFloat.fin) = PFloat.fin (l.foldl max a) := by
  induction l generalizing a with
  | nil => rfl
  | cons w ws ih =>
    have hstep : (if PFloat.lt (PFloat.fin a) (PFloat.fin w) then PFloat.fin w
        else PFloat.fin a) = PFloat.fin (max a w) := by
      simp only [PFloat.lt, decide_eq_true_eq]
      split_ifs with hlt
      · exact congrArg _ (max_eq_right hlt.le).symm
      · exact congrArg _ (max_eq_left (not_lt.mp hlt)).symm
    rw [List.map_cons, pyFoldMax_cons, hstep, ih, List.foldl_cons]

theorem pyMinD_fin (l : List ℚ) (d : ℚ) :
    pyMinD (l.map PFloat.fin) (PFloat.fin d) = PFloat.fin (qMinD l d) := by
  cases l with
  | nil => rfl
  | cons v vs => exact pyFoldMin_fin v vs

theorem pyMaxD_fin (l : List ℚ) (d : ℚ) :
    pyMaxD (l.map PFloat.fin) (PFloat.fin d) = PFloat.fin (qMaxD l d) := by
  cases l with
  | nil => rfl
  | cons v vs => exact pyFoldMax_fin v vs

theorem foldl_min_affine (m s : ℚ) (hs : 0 < s) (l : List ℚ) (a : ℚ) :
    List.foldl min ((a - m) * s) (l.map (fun q => (q - m) * s))
      = (List.foldl min a l - m) * s := by
  induction l generalizing a with
  | nil => rfl
  | cons w ws ih =>
    simp only [List.map_cons, List.foldl_cons]
    rw [show min ((a - m) * s) ((w - m) * s) = (min a w - m) * s by
          rw [← min_mul_of_nonneg _ _ hs.le, min_sub_sub_right],
        ih (min a w)]

theorem foldl_max_affine (m s : ℚ) (hs : 0 < s) (l : List ℚ) (a : ℚ) :
    List.foldl max ((a - m) * s) (l.map (fun q => (q - m) * s))
      = (List.foldl max a l - m) * s := by
  induction l generalizing a with
  | nil => rfl
  | cons w ws ih =>
    simp only [List.map_cons, List.foldl_cons]
    rw [show max ((a - m) * s) ((w - m) * s) = (max a w - m) * s by
          rw [← max_mul_of_nonneg _ _ hs.le, max_sub_sub_right],
        ih (max a w)]

theorem transform_cmd_eq (mx my mz s : PFloat) (c : Command) :
    (transform_command mx my mz s c).cmd = c.cmd := rfl

theorem transform_hasCoordKey (mx my mz s : PFloat) (c : Command) :
    hasCoordKey (transform_command mx my mz s c) = hasCoordKey c := by
  cases hx : c.x <;> cases hy : c.y <;> cases hz : c.z <;>
    simp [transform_command, hasCoordKey, PyField.present, hx, hy, hz]

theorem transform_x_value (mx my mz s : PFloat) (c : Command) :
    (transform_command mx my mz s c).x.value
      = (c.x.value).map (fun v => PFloat.mul (PFloat.sub v mx) s) := by
  cases hx : c.x <;> simp [transform_command, PyField.value, hx]

theorem transform_y_value (mx my mz s : PFloat) (c : Command) :
    (transform_command mx my mz s c).y.value
      = (c.y.value).map (fun v => PFloat.mul (PFloat.sub v my) s) := by
  cases hy : c.y <;> simp [transform_command, PyField.value, hy]

theorem transform_z_value (mx my mz s : PFloat) (c : Command) :
    (transform_command mx my mz s c).z.value
      = (c.z.value).map (fun v => PFloat.mul (PFloat.sub v mz) s) := by
  cases hz : c.z <;> simp [transform_command, PyField.value, hz]

theorem vals_map (T : Command → Command) (g : Command → PyField) (gm : PFloat → PFloat)
    (hkey : ∀ c, hasCoordKey (T c) = hasCoordKey c)
    (hval : ∀ c, (g (T c)).value = ((g c).value).map gm) (cmds : List Command) :
    (coords (cmds.map T)).filterMap (fun c => (g c).value)
      = ((coords cmds).filterMap (fun c => (g c).value)).map gm := by
  induction cmds with
  | nil => rfl
  | cons c rest ih =>
    simp only [List.map_cons, coords, List.filter_cons, hkey c] at *
    by_cases h : hasCoordKey c = true
    · simp only [h, if_pos, List.filterMap_cons, hval c]
      cases hgc : (g c).value with
      | none => simpa [hgc] using ih
      | some v => simp only [hgc, Option.map_some', List.map_cons]; exact congrArg _ ih
    · simp only [h, if_neg, Bool.false_eq_true, if_false]
      exact ih

theorem x_vals_transform (mx my mz s : PFloat) (cmds : List Command) :
    x_vals (cmds.map (transform_command mx my mz s))
      = (x_vals cmds).map (fun v => PFloat.mul (PFloat.sub v mx) s) :=
  vals_map _ _ _ (transform_hasCoordKey mx my mz s) (transform_x_value mx my mz s) cmds

theorem y_vals_transform (mx my mz s : PFloat) (cmds : List Command) :
    y_vals (cmds.map (transform_command mx my mz s))
      = (y_vals cmds).map (fun v => PFloat.mul (PFloat.sub v my) s) :=
  vals_map _ _ _ (transform_hasCoordKey mx my mz s) (transform_y_value mx my mz s) cmds

theorem z_vals_transform (mx my mz s : PFloat) (cmds : List Command) :
    z_vals (cmds.map (transform_command mx my mz s))
      = (z_vals cmds).map (fun v => PFloat.mul (PFloat.sub v mz) s) :=
  vals_map _ _ _ (transform_hasCoordKey mx my mz s) (transform_z_value mx my mz s) cmds

/-- A field is absent, `None`, or a finite numeric value. -/
def PyField.finite : PyField → Bool
  | num (PFloat.fin _) => true
  | num _ => false
  | _ => true

/-- All coordinate fields of a command are absent, `None`, or finite. -/
def Command.finiteCoords (c : Command) : Bool := c.x.finite && c.y.finite && c.z.finite

/-- Every coordinate value occurring in the sequence is finite. -/
def all_finite (cmds : List Command) : Bool := cmds.all Command.finiteCoords

theorem all_finite_vals (cmds : List Command) (h : all_finite cmds = true)
    (g : Command → PyField) (hg : ∀ c, Command.finiteCoords c = true → (g c).finite = true) :
    ∀ v ∈ (coords cmds).filterMap (fun c => (g c).value), ∃ q, v = PFloat.fin q := by
  intro v hv
  rcases List.mem_filterMap.mp hv with ⟨c, hc, hval⟩
  have hcm : c ∈ cmds := (List.mem_filter.mp hc).1
  have hfc : Command.finiteCoords c = true := List.all_eq_true.mp h c hcm
  have hgf : (g c).finite = true := hg c hfc
  cases hgx : g c with
  | num u =>
    rw [hgx] at hval hgf
    cases u with
    | fin q => exact ⟨q, by simpa [PyField.value] using hval.symm⟩
    | inf => simp [PyField.finite] at hgf
    | ninf => simp [PyField.finite] at hgf
    | nan => simp [PyField.finite] at hgf
  | null => rw [hgx] at hval; simp [PyField.value] at hval
  | missing => rw [hgx] at hval; simp [PyField.value] at hval

/-- The finite x values of the sequence, in order. -/
def qx_list (cmds : List Command) : List ℚ := finList (x_vals cmds)

/-- The finite y values of the sequence, in order. -/
def qy_list (cmds : List Command) : List ℚ := finList (y_vals cmds)

/-- The finite z values of the sequence, in order. -/
def qz_list (cmds : List Command) : List ℚ := finList (z_vals cmds)

theorem finiteCoords_x {c : Command} (hc : Command.finiteCoords c = true) :
    c.x.finite = true := by
  simp only [Command.finiteCoords, Bool.and_eq_true] at hc
  exact hc.1.1

theorem finiteCoords_y {c : Command} (hc : Command.finiteCoords c = true) :
    c.y.finite = true := by
  simp only [Command.finiteCoords, Bool.and_eq_true] at hc
  exact hc.1.2

theorem finiteCoords_z {c : Command} (hc : Command.finiteCoords c = true) :
    c.z.finite = true := by
  simp only [Command.finiteCoords, Bool.and_eq_true] at hc
  exact hc.2

theorem x_vals_eq (cmds : List Command) (h : all_finite cmds = true) :
    x_vals cmds = (qx_list cmds).map PFloat.fin :=
  all_fin_eq_map _ (all_finite_vals cmds h (fun c => c.x) (fun _ hc => finiteCoords_x hc))

theorem y_vals_eq (cmds : List Command) (h : all_finite cmds = true) :
    y_vals cmds = (qy_list cmds).map PFloat.fin :=
  all_fin_eq_map _ (all_finite_vals cmds h (fun c => c.y) (fun _ hc => finiteCoords_y hc))

theorem z_vals_eq (cmds : List Command) (h : all_finite cmds = true) :
    z_vals cmds = (qz_list cmds).map PFloat.fin :=
  all_fin_eq_map _ (all_finite_vals cmds h (fun c => c.z) (fun _ hc => finiteCoords_z hc))

theorem original_width_eq (cmds : List Command) (h : all_finite cmds = true) :
    original_width cmds
      = PFloat.fin (qMaxD (qx_list cmds) 0 - qMinD (qx_list cmds) 0) := by
  rw [original_width, max_x, min_x, x_vals_eq cmds h]
  rw [show (PFloat.fin 0) = PFloat.fin (0:ℚ) from rfl, pyMinD_fin, pyMaxD_fin]
  rfl

theorem original_depth_eq (cmds : List Command) (h : all_finite cmds = true) :
    original_depth cmds
      = PFloat.fin (qMaxD (qy_list cmds) 0 - qMinD (qy_list cmds) 0) := by
  rw [original_depth, max_y, min_y, y_vals_eq cmds h]
  rw [show (PFloat.fin 0) = PFloat.fin (0:ℚ) from rfl, pyMinD_fin, pyMaxD_fin]
  rfl

theorem original_height_eq (cmds : List Command) (h : all_finite cmds = true) :
    original_height cmds
      = PFloat.fin (qMaxD (qz_list cmds) 0 - qMinD (qz_list cmds) 0) := by
  rw [original_height, max_z, min_z, z_vals_eq cmds h]
  rw [show (PFloat.fin 0) = PFloat.fin (0:ℚ) from rfl, pyMinD_fin, pyMaxD_fin]
  rfl

theorem scale_axis_of_gt (dim : ℚ) (ext : PFloat) (W : ℚ) (hext : ext = PFloat.fin W)
    (hgt : epsGuard < W) :
    (if PFloat.lt (PFloat.fin epsGuard) ext then PFloat.div (PFloat.fin dim) ext
      else PFloat.inf) = PFloat.fin (dim / W) := by
  subst hext
  rw [if_pos (by simpa [PFloat.lt] using hgt)]
  rfl

theorem scale_axis_of_le (dim : ℚ) (ext : PFloat) (W : ℚ) (hext : ext = PFloat.fin W)
    (hle : ¬ epsGuard < W) :
    (if PFloat.lt (PFloat.fin epsGuard) ext then PFloat.div (PFloat.fin dim) ext
      else PFloat.inf) = PFloat.inf := by
  subst hext
  rw [if_neg (by simpa [PFloat.lt] using hle)]

/-- With a finite extent and a positive envelope dimension, the scale
candidate is strictly positive (finite) or infinite. -/
theorem scale_axis_pos (dim : ℚ) (ext : PFloat) (W : ℚ) (hext : ext = PFloat.fin W)
    (hdim : 0 < dim) :
    PFloat.lt (PFloat.fin 0)
      (if PFloat.lt (PFloat.fin epsGuard) ext then PFloat.div (PFloat.fin dim) ext
        else PFloat.inf) = true := by
  subst hext
  by_cases hgt : epsGuard < W
  · rw [if_pos (by simpa [PFloat.lt] using hgt)]
    have hW : 0 < W := lt_trans (by norm_num [epsGuard]) hgt
    simp [PFloat.div, PFloat.lt, div_pos hdim hW]
  · rw [if_neg (by simpa [PFloat.lt] using hgt)]
    rfl

theorem scale_x_def (env : WorkEnvelope) (cmds : List Command) :
    scale_x env cmds
      = (if PFloat.lt (PFloat.fin epsGuard) (original_width cmds) then
          PFloat.div (PFloat.fin env.width) (original_width cmds) else PFloat.inf) := rfl

theorem scale_y_def (env : WorkEnvelope) (cmds : List Command) :
    scale_y env cmds
      = (if PFloat.lt (PFloat.fin epsGuard) (original_depth cmds) then
          PFloat.div (PFloat.fin env.depth) (original_depth cmds) else PFloat.inf) := rfl

theorem scale_z_def (env : WorkEnvelope) (cmds : List Command) :
    scale_z env cmds
      = (if PFloat.lt (PFloat.fin epsGuard) (original_height cmds) then
          PFloat.div (PFloat.fin env.height) (original_height cmds) else PFloat.inf) := rfl

/-- When every candidate passes the `s > 0` filter, `scale_factor` is the
Python `min` of the three candidates. -/
theorem scale_factor_eq_min (env : WorkEnvelope) (cmds : List Command)
    (hall : ∀ c ∈ [scale_x env cmds, scale_y env cmds, scale_z env cmds],
      PFloat.lt (PFloat.fin 0) c = true) :
    scale_factor env cmds
      = some (pyFoldMin (scale_x env cmds) [scale_y env cmds, scale_z env cmds]) := by
  unfold scale_factor
  rw [List.filter_eq_self.mpr hall]

/-- With finite coordinates and a positive envelope, `scale_factor` succeeds
and returns a candidate that no candidate beats. -/
theorem scale_factor_exists_pos (env : WorkEnvelope) (cmds : List Command)
    (hfin : all_finite cmds = true) (hW : 0 < env.width) (hD : 0 < env.depth)
    (hH : 0 < env.height) :
    ∃ v, scale_factor env cmds = some v ∧ PFloat.lt (PFloat.fin 0) v = true ∧
      (v = scale_x env cmds ∨ v = scale_y env cmds ∨ v = scale_z env cmds) ∧
      ∀ w ∈ [scale_x env cmds, scale_y env cmds, scale_z env cmds],
        PFloat.lt w v = false := by
  have hxpos : PFloat.lt (PFloat.fin 0) (scale_x env cmds) = true := by
    rw [scale_x_def]
    exact scale_axis_pos _ _ _ (original_width_eq cmds hfin) hW
  have hypos : PFloat.lt (PFloat.fin 0) (scale_y env cmds) = true := by
    rw [scale_y_def]
    exact scale_axis_pos _ _ _ (original_depth_eq cmds hfin) hD
  have hzpos : PFloat.lt (PFloat.fin 0) (scale_z env cmds) = true := by
    rw [scale_z_def]
    exact scale_axis_pos _ _ _ (original_height_eq cmds hfin) hH
  have hall : ∀ c ∈ [scale_x env cmds, scale_y env cmds, scale_z env cmds],
      PFloat.lt (PFloat.fin 0) c = true := by
    intro c hc
    rcases List.mem_cons.mp hc with h | hc
    · rw [h]; exact hxpos
    rcases List.mem_cons.mp hc with h | hc
    · rw [h]; exact hypos
    rcases List.mem_cons.mp hc with h | hc
    · rw [h]; exact hzpos
    · simp at hc
  refine ⟨pyFoldMin (scale_x env cmds) [scale_y env cmds, scale_z env cmds],
    scale_factor_eq_min env cmds hall, hall _ (pyFoldMin_mem _ _),
    ?_, fun w hw => pyFoldMin_notlt _ _ w hw⟩
  have hm := pyFoldMin_mem (scale_x env cmds) [scale_y env cmds, scale_z env cmds]
  simpa using hm

/-- Claim C3 (amended): with at least one axis extent above the `1e-6`
threshold (so that a finite candidate exists), all envelope dimensions
positive and finite coordinates, the derived `scale_factor` is finite and
strictly positive, equals one of the three per-axis candidates, and no
candidate (finite or infinite) compares below it; no division by zero occurs
since each division is guarded by the extent threshold.  (The unamended claim
fails when every axis extent is at or below the threshold: the filter `s > 0`
keeps infinite candidates, so `scale_factor` is `inf`, not finite.) -/
theorem claim_C3 (env : WorkEnvelope) (cmds : List Command)
    (hfin : all_finite cmds = true)
    (hW : 0 < env.width) (hD : 0 < env.depth) (hH : 0 < env.height)
    (hext : PFloat.lt (PFloat.fin epsGuard) (original_width cmds) = true
      ∨ PFloat.lt (PFloat.fin epsGuard) (original_depth cmds) = true
      ∨ PFloat.lt (PFloat.fin epsGuard) (original_height cmds) = true) :
    ∃ q : ℚ, scale_factor env cmds = some (PFloat.fin q) ∧ 0 < q ∧
      (PFloat.fin q = scale_x env cmds ∨ PFloat.fin q = scale_y env cmds
        ∨ PFloat.fin q = scale_z env cmds) ∧
      ∀ w ∈ [scale_x env cmds, scale_y env cmds, scale_z env cmds],
        PFloat.lt w (PFloat.fin q) = false := by
  obtain ⟨v, heq, hpos, hmem, hnot⟩ :=
    scale_factor_exists_pos env cmds hfin hW hD hH
  have hfin_cand : ∃ a : ℚ,
      PFloat.fin a ∈ [scale_x env cmds, scale_y env cmds, scale_z env cmds] := by
    rcases hext with h | h | h
    · obtain hWe := original_width_eq cmds hfin
      rw [hWe] at h
      simp only [PFloat.lt, decide_eq_true_eq] at h
      refine ⟨env.width / (qMaxD (qx_list cmds) 0 - qMinD (qx_list cmds) 0), ?_⟩
      rw [show scale_x env cmds = _ from scale_x_def env cmds,
        scale_axis_of_gt _ _ _ hWe h]
      exact List.mem_cons_self _ _
    · obtain hWe := original_depth_eq cmds hfin
      rw [hWe] at h
      simp only [PFloat.lt, decide_eq_true_eq] at h
      refine ⟨env.depth / (qMaxD (qy_list cmds) 0 - qMinD (qy_list cmds) 0), ?_⟩
      rw [show scale_y env cmds = _ from scale_y_def env cmds,
        scale_axis_of_gt _ _ _ hWe h]
      simp
    · obtain hWe := original_height_eq cmds hfin
      rw [hWe] at h
      simp only [PFloat.lt, decide_eq_true_eq] at h
      refine ⟨env.height / (qMaxD (qz_list cmds) 0 - qMinD (qz_list cmds) 0), ?_⟩
      rw [show scale_z env cmds = _ from scale_z_def env cmds,
        scale_axis_of_gt _ _ _ hWe h]
      simp
  cases v with
  | fin q =>
    refine ⟨q, heq, ?_, ?_, hnot⟩
    · simpa [PFloat.lt] using hpos
    · rcases hmem with h | h | h
      · exact Or.inl h
      · exact Or.inr (Or.inl h)
      · exact Or.inr (Or.inr h)
  | inf =>
    obtain ⟨a, ha⟩ := hfin_cand
    have := hnot (PFloat.fin a) ha
    simp [PFloat.lt] at this
  | ninf => simp [PFloat.lt] at hpos
  | nan => simp [PFloat.lt] at hpos

/-- The work envelope of the tool's CLI defaults. -/
def envelope_default : WorkEnvelope := ⟨285, 172, 38⟩

/-- A text-engraving run whose only text is an unsupported character: it
still contains a coordinate-bearing command (the final `G0 Z25`), but every
axis extent is zero. -/
def text_q : List Command := generate_text_engraving ['q'] 20 120 10 1000 20000

theorem claim_C3_counterexample :
    (coords text_q).isEmpty = false ∧
    (z_vals text_q).isEmpty = false ∧
    (0:ℚ) < envelope_default.width ∧ (0:ℚ) < envelope_default.depth ∧
    (0:ℚ) < envelope_default.height ∧
    scale_factor envelope_default text_q = some PFloat.inf :=
  ⟨by decide, by decide, by decide, by decide, by decide, by decide⟩

/-- Claim C9 (amended): when no command carries any coordinate *key* — as for
sequences of spindle/dwell/tool commands — the scaler skips the transform and
serializes the original sequence unchanged.  (The unamended claim, which only
requires that no coordinate *value* is present, fails: a `G2` with `x=None`,
`y=None` still has the keys, triggers the transform with an infinite scale
factor, and its `i`/`j` fields are rewritten.) -/
theorem claim_C9 (env : WorkEnvelope) (cmds : List Command)
    (h : ∀ c ∈ cmds, c.x = PyField.missing ∧ c.y = PyField.missing
      ∧ c.z = PyField.missing) :
    scaled_commands env cmds = some cmds ∧
    generate_and_write env cmds = some (write_file cmds) := by
  have hcoords : coords cmds = [] := by
    refine List.filter_eq_nil_iff.mpr (fun c hc => ?_)
    rcases h c hc with ⟨hx, hy, hz⟩
    simp [hasCoordKey, hx, hy, hz, PyField.present]
  have hs : scaled_commands env cmds = some cmds := by
    unfold scaled_commands
    rw [hcoords]
    rfl
  exact ⟨hs, by simp [generate_and_write, hs]⟩

/-- An arc command whose `x` and `y` keys are present but `None` while `i`
and `j` carry values. -/
def cmds_ij : List Command :=
  [add_g2 PyField.null PyField.null (qv 1) (qv 2) PyField.null]

theorem claim_C9_counterexample :
    (∀ c ∈ cmds_ij, c.x.value = none ∧ c.y.value = none ∧ c.z.value = none) ∧
    scaled_commands envelope_default cmds_ij ≠ some cmds_ij ∧
    generate_and_write envelope_default cmds_ij ≠ some (write_file cmds_ij) ∧
    generate_and_write envelope_default cmds_ij = some ["G2 Iinf Jinf"] :=
  ⟨by decide, by decide, by decide, by decide⟩

/-- A two-command sequence with nondegenerate x and y extents. -/
def c3w : List Command :=
  [add_g1 (qv 0) (qv 0) PyField.null (qv 300),
   add_g1 (qv 5) (qv 7) PyField.null (qv 1000)]

theorem claim_C3_witness :
    all_finite c3w = true ∧ (0:ℚ) < envelope_default.width ∧
    (0:ℚ) < envelope_default.depth ∧ (0:ℚ) < envelope_default.height ∧
    PFloat.lt (PFloat.fin epsGuard) (original_width c3w) = true ∧
    (∃ q : ℚ, scale_factor envelope_default c3w = some (PFloat.fin q) ∧ 0 < q ∧
      (PFloat.fin q = scale_x envelope_default c3w
        ∨ PFloat.fin q = scale_y envelope_default c3w
        ∨ PFloat.fin q = scale_z envelope_default c3w) ∧
      ∀ w ∈ [scale_x envelope_default c3w, scale_y envelope_default c3w,
          scale_z envelope_default c3w], PFloat.lt w (PFloat.fin q) = false) :=
  ⟨by decide, by decide, by decide, by decide, by decide,
   claim_C3 envelope_default c3w (by decide) (by decide) (by decide) (by decide)
     (Or.inl (by decide))⟩

/-- A sequence of spindle and dwell commands with no coordinate keys. -/
def cmds_m : List Command := [add_m3 20000, add_dwell 2, add_m5]

theorem claim_C9_witness :
    (∀ c ∈ cmds_m, c.x = PyField.missing ∧ c.y = PyField.missing
      ∧ c.z = PyField.missing) ∧
    (scaled_commands envelope_default cmds_m = some cmds_m ∧
     generate_and_write envelope_default cmds_m = some (write_file cmds_m)) :=
  ⟨by decide, claim_C9 envelope_default cmds_m (by decide)⟩

/-- Claim C10: the scaling pass preserves the sequence length and order and
every per-command field other than the coordinate fields x, y, z, i, j — the
kind tag, feed rate, spindle speed, tool number, dwell time, text, raw
G-code, and inline comment all pass through unchanged (the pass builds new
records; the input list is untouched in this functional model). -/
theorem claim_C10 (env : WorkEnvelope) (cmds out : List Command)
    (h : scaled_commands env cmds = some out) :
    out.length = cmds.length ∧
    ∀ k : ℕ,
      out[k]?.map Command.cmd = cmds[k]?.map Command.cmd ∧
      out[k]?.map Command.f = cmds[k]?.map Command.f ∧
      out[k]?.map Command.s = cmds[k]?.map Command.s ∧
      out[k]?.map Command.t = cmds[k]?.map Command.t ∧
      out[k]?.map Command.p = cmds[k]?.map Command.p ∧
      out[k]?.map Command.text = cmds[k]?.map Command.text ∧
      out[k]?.map Command.gcode = cmds[k]?.map Command.gcode ∧
      out[k]?.map Command.comment = cmds[k]?.map Command.comment := by
  unfold scaled_commands at h
  by_cases hcase : (coords cmds).isEmpty = true
  · rw [if_pos hcase] at h
    obtain rfl : cmds = out := Option.some.inj h
    exact ⟨rfl, fun k => ⟨rfl, rfl, rfl, rfl, rfl, rfl, rfl, rfl⟩⟩
  · rw [if_neg hcase] at h
    cases hsf : scale_factor env cmds with
    | none => rw [hsf] at h; exact absurd h (by simp)
    | some s =>
      rw [hsf] at h
      obtain rfl := Option.some.inj h
      refine ⟨List.length_map _ _, fun k => ?_⟩
      simp only [List.getElem?_map]
      cases cmds[k]? with
      | none => exact ⟨rfl, rfl, rfl, rfl, rfl, rfl, rfl, rfl⟩
      | some c => exact ⟨rfl, rfl, rfl, rfl, rfl, rfl, rfl, rfl⟩

/-- The scaled form of `c3w` under the default envelope (scale factor
`172/7`, dominated by the y axis). -/
def c3w_out : List Command :=
  [add_g1 (qv 0) (qv 0) PyField.null (qv 300),
   add_g1 (qv (860/7)) (qv 172) PyField.null (qv 1000)]

theorem claim_C10_witness :
    scaled_commands envelope_default c3w = some c3w_out ∧
    (c3w_out.length = c3w.length ∧
     ∀ k : ℕ,
      c3w_out[k]?.map Command.cmd = c3w[k]?.map Command.cmd ∧
      c3w_out[k]?.map Command.f = c3w[k]?.map Command.f ∧
      c3w_out[k]?.map Command.s = c3w[k]?.map Command.s ∧
      c3w_out[k]?.map Command.t = c3w[k]?.map Command.t ∧
      c3w_out[k]?.map Command.p = c3w[k]?.map Command.p ∧
      c3w_out[k]?.map Command.text = c3w[k]?.map Command.text ∧
      c3w_out[k]?.map Command.gcode = c3w[k]?.map Command.gcode ∧
      c3w_out[k]?.map Command.comment = c3w[k]?.map Command.comment) :=
  ⟨by decide, claim_C10 envelope_default c3w c3w_out (by decide)⟩

/-- Claim C1: whenever the transform runs (some coordinate key present,
positive envelope, finite coordinates), the output sequence is exactly the
per-command rewrite in which a present x/y/z value `v` becomes
`(v - min_axis) * scale_factor` (with `min_axis` the Python minimum of that
axis's present values over the whole sequence), a present i/j value becomes
`v * scale_factor` with no translation, and an absent or `None` field stays
absent or `None`. -/
theorem claim_C1 (env : WorkEnvelope) (cmds : List Command)
    (hfin : all_finite cmds = true) (hW : 0 < env.width) (hD : 0 < env.depth)
    (hH : 0 < env.height) (hc : (coords cmds).isEmpty = false) :
    ∃ s, scale_factor env cmds = some s ∧
      scaled_commands env cmds
        = some (cmds.map (transform_command (min_x cmds) (min_y cmds) (min_z cmds) s)) ∧
      ∀ c : Command,
        (transform_command (min_x cmds) (min_y cmds) (min_z cmds) s c).x
          = (match c.x with
             | PyField.num v => PyField.num (PFloat.mul (PFloat.sub v (min_x cmds)) s)
             | w => w) ∧
        (transform_command (min_x cmds) (min_y cmds) (min_z cmds) s c).y
          = (match c.y with
             | PyField.num v => PyField.num (PFloat.mul (PFloat.sub v (min_y cmds)) s)
             | w => w) ∧
        (transform_command (min_x cmds) (min_y cmds) (min_z cmds) s c).z
          = (match c.z with
             | PyField.num v => PyField.num (PFloat.mul (PFloat.sub v (min_z cmds)) s)
             | w => w) ∧
        (transform_command (min_x cmds) (min_y cmds) (min_z cmds) s c).i
          = (match c.i with
             | PyField.num v => PyField.num (PFloat.mul v s)
             | w => w) ∧
        (transform_command (min_x cmds) (min_y cmds) (min_z cmds) s c).j
          = (match c.j with
             | PyField.num v => PyField.num (PFloat.mul v s)
             | w => w) := by
  obtain ⟨v, heq, _, _, _⟩ := scale_factor_exists_pos env cmds hfin hW hD hH
  refine ⟨v, heq, ?_, ?_⟩
  · unfold scaled_commands
    rw [if_neg (by simp [hc]), heq]
  · intro c
    refine ⟨?_, ?_, ?_, ?_, ?_⟩
    · cases hx : c.x <;> simp [transform_command, hx]
    · cases hy : c.y <;> simp [transform_command, hy]
    · cases hz : c.z <;> simp [transform_command, hz]
    · cases hi : c.i <;> simp [transform_command, hi]
    · cases hj : c.j <;> simp [transform_command, hj]

theorem claim_C1_witness :
    all_finite c3w = true ∧ (0:ℚ) < envelope_default.width ∧
    (0:ℚ) < envelope_default.depth ∧ (0:ℚ) < envelope_default.height ∧
    (coords c3w).isEmpty = false ∧
    (∃ s, scale_factor envelope_default c3w = some s ∧
      scaled_commands envelope_default c3w
        = some (c3w.map (transform_command (min_x c3w) (min_y c3w) (min_z c3w) s)) ∧
      ∀ c : Command,
        (transform_command (min_x c3w) (min_y c3w) (min_z c3w) s c).x
          = (match c.x with
             | PyField.num v => PyField.num (PFloat.mul (PFloat.sub v (min_x c3w)) s)
             | w => w) ∧
        (transform_command (min_x c3w) (min_y c3w) (min_z c3w) s c).y
          = (match c.y with
             | PyField.num v => PyField.num (PFloat.mul (PFloat.sub v (min_y c3w)) s)
             | w => w) ∧
        (transform_command (min_x c3w) (min_y c3w) (min_z c3w) s c).z
          = (match c.z with
             | PyField.num v => PyField.num (PFloat.mul (PFloat.sub v (min_z c3w)) s)
             | w => w) ∧
        (transform_command (min_x c3w) (min_y c3w) (min_z c3w) s c).i
          = (match c.i with
             | PyField.num v => PyField.num (PFloat.mul v s)
             | w => w) ∧
        (transform_command (min_x c3w) (min_y c3w) (min_z c3w) s c).j
          = (match c.j with
             | PyField.num v => PyField.num (PFloat.mul v s)
             | w => w)) :=
  ⟨by decide, by decide, by decide, by decide, by decide,
   claim_C1 envelope_default c3w (by decide) (by decide) (by decide) (by decide)
     (by decide)⟩

/- ## Serializer observations for the modal feed-rate claim -/

/-- A token is an F token when its first character is `F`. -/
def tok_is_F (tok : String) : Bool :=
  match tok.data with
  | c :: _ => c == 'F'
  | [] => false

/-- Some part of a line is an F token. -/
def has_F_tok (parts : List String) : Bool := parts.any tok_is_F

/-- The rendered line contains the character `F` anywhere. -/
def line_has_F (l : String) : Bool := l.data.contains 'F'

theorem tok_T (r : String) : tok_is_F ("T" ++ r) = false := by cases r; rfl

theorem tok_S (r : String) : tok_is_F ("S" ++ r) = false := by cases r; rfl

theorem tok_P (r : String) : tok_is_F ("P" ++ r) = false := by cases r; rfl

theorem tok_X (r : String) : tok_is_F ("X" ++ r) = false := by cases r; rfl

theorem tok_Y (r : String) : tok_is_F ("Y" ++ r) = false := by cases r; rfl

theorem tok_Z (r : String) : tok_is_F ("Z" ++ r) = false := by cases r; rfl

theorem tok_I (r : String) : tok_is_F ("I" ++ r) = false := by cases r; rfl

theorem tok_J (r : String) : tok_is_F ("J" ++ r) = false := by cases r; rfl

theorem tok_F (r : String) : tok_is_F ("F" ++ r) = true := by cases r; rfl

theorem chunk_T_no_F (o : Option ℤ) :
    (match o with | some t => ["T" ++ toString t] | none => ([] : List String)).any
      tok_is_F = false := by
  cases o with
  | none => rfl
  | some t => simp [tok_T]

theorem chunk_S_no_F (o : Option ℤ) :
    (match o with | some s => ["S" ++ toString s] | none => ([] : List String)).any
      tok_is_F = false := by
  cases o with
  | none => rfl
  | some s => simp [tok_S]

theorem chunk_P_no_F (o : Option ℚ) :
    (match o with | some p => ["P" ++ fmt1Q p] | none => ([] : List String)).any
      tok_is_F = false := by
  cases o with
  | none => rfl
  | some p => simp [tok_P]

theorem chunk_X_no_F (v : PyField) :
    (match v with | PyField.num u => ["X" ++ fmt3 u] | _ => ([] : List String)).any
      tok_is_F = false := by
  cases v with
  | num u => simp [tok_X]
  | null => rfl
  | missing => rfl

theorem chunk_Y_no_F (v : PyField) :
    (match v with | PyField.num u => ["Y" ++ fmt3 u] | _ => ([] : List String)).any
      tok_is_F = false := by
  cases v with
  | num u => simp [tok_Y]
  | null => rfl
  | missing => rfl

theorem chunk_Z_no_F (v : PyField) :
    (match v with | PyField.num u => ["Z" ++ fmt3 u] | _ => ([] : List String)).any
      tok_is_F = false := by
  cases v with
  | num u => simp [tok_Z]
  | null => rfl
  | missing => rfl

theorem chunk_I_no_F (v : PyField) :
    (match v with | PyField.num u => ["I" ++ fmt3 u] | _ => ([] : List String)).any
      tok_is_F = false := by
  cases v with
  | num u => simp [tok_I]
  | null => rfl
  | missing => rfl

theorem chunk_J_no_F (v : PyField) :
    (match v with | PyField.num u => ["J" ++ fmt3 u] | _ => ([] : List String)).any
      tok_is_F = false := by
  cases v with
  | num u => simp [tok_J]
  | null => rfl
  | missing => rfl

/-- Before the modal feed-rate block, no built part is an F token (as long as
the command keyword itself does not start with `F`; no builder keyword does). -/
theorem parts_pre_no_F (c : Command) (hc : tok_is_F c.cmd = false) :
    has_F_tok (parts_pre c) = false := by
  unfold has_F_tok parts_pre
  simp [List.any_append, hc, chunk_T_no_F, chunk_S_no_F, chunk_P_no_F,
    chunk_X_no_F, chunk_Y_no_F, chunk_Z_no_F, chunk_I_no_F, chunk_J_no_F]

/-- The spec's modal feed-rate example: five linear-feed commands with feed
rates 300, 300, 1000, 1000, 1000. -/
def feed_example : List Command :=
  [add_g1 (qv 10) (qv 0) PyField.null (qv 300),
   add_g1 (qv 20) (qv 0) PyField.null (qv 300),
   add_g1 (qv 30) (qv 0) PyField.null (qv 1000),
   add_g1 (qv 40) (qv 0) PyField.null (qv 1000),
   add_g1 (qv 50) (qv 0) PyField.null (qv 1000)]

/-- Claim C4: the serializer starts each run with no last-emitted feed rate;
a command's line carries an F token exactly when the command has a feed rate
that differs (Python `!=`, with `None` different from everything) from the
last emitted one; on emission the tracked value becomes the emitted rate and
otherwise both the parts and the tracked value are unchanged, so an unchanged
feed rate is never re-emitted.  On the spec's example `[300, 300, 1000, 1000,
1000]` exactly the first and third lines carry an F. -/
theorem claim_C4 :
    (∀ cmds, write_file cmds = write_loop none cmds)
    ∧ (∀ (cur : Option PFloat) (c : Command), tok_is_F c.cmd = false →
        (has_F_tok (feed_step cur c).1 = true
          ↔ ∃ v, c.f = PyField.num v ∧ feedChanged cur v = true))
    ∧ (∀ (cur : Option PFloat) (c : Command) (v : PFloat),
        c.f = PyField.num v → feedChanged cur v = true →
        feed_step cur c = (parts_pre c ++ ["F" ++ fmtFeed v], some v))
    ∧ (∀ (cur : Option PFloat) (c : Command) (v : PFloat),
        c.f = PyField.num v → feedChanged cur v = false →
        feed_step cur c = (parts_pre c, cur))
    ∧ (write_file feed_example).map line_has_F = [true, false, true, false, false]
    ∧ (write_file feed_example).length = 5 := by
  refine ⟨fun _ => rfl, ?_, ?_, ?_, by decide, by decide⟩
  · intro cur c hc
    have hpre : has_F_tok (parts_pre c) = false := parts_pre_no_F c hc
    unfold feed_step
    cases hf : c.f with
    | num v =>
      dsimp only
      by_cases hch : feedChanged cur v = true
      · rw [if_pos hch]
        simp only [has_F_tok, List.any_append]
        constructor
        · intro _; exact ⟨v, rfl, hch⟩
        · intro _
          have hF : tok_is_F ("F" ++ fmtFeed v) = true := tok_F _
          simp [hF]
      · rw [if_neg hch]
        constructor
        · intro habs
          rw [show has_F_tok (parts_pre c) = true from habs] at hpre
          exact absurd hpre (by simp)
        · rintro ⟨v2, hv2, hch2⟩
          obtain rfl : v = v2 := by injection hv2
          exact absurd hch2 hch
    | null =>
      dsimp only
      constructor
      · intro habs
        rw [show has_F_tok (parts_pre c) = true from habs] at hpre
        exact absurd hpre (by simp)
      · rintro ⟨v2, hv2, _⟩
        exact absurd hv2 (by simp)
    | missing =>
      dsimp only
      constructor
      · intro habs
        rw [show has_F_tok (parts_pre c) = true from habs] at hpre
        exact absurd hpre (by simp)
      · rintro ⟨v2, hv2, _⟩
        exact absurd hv2 (by simp)
  · intro cur c v hf hch
    unfold feed_step
    rw [hf]
    dsimp only
    rw [if_pos hch]
  · intro cur c v hf hch
    unfold feed_step
    rw [hf]
    dsimp only
    rw [if_neg (by simp [hch])]

theorem claim_C4_witness :
    tok_is_F (add_g1 (qv 10) (qv 0) PyField.null (qv 300)).cmd = false ∧
    (has_F_tok (feed_step none (add_g1 (qv 10) (qv 0) PyField.null (qv 300))).1 = true
      ↔ ∃ v, (add_g1 (qv 10) (qv 0) PyField.null (qv 300)).f = PyField.num v
          ∧ feedChanged none v = true) :=
  ⟨by decide, claim_C4.2.1 none (add_g1 (qv 10) (qv 0) PyField.null (qv 300)) (by decide)⟩

/-- Claim C5 (amended): a character outside the glyph table contributes
nothing at all — no motion command is emitted and the horizontal cursor does
not advance; the `char_size * 1.2` advance (and the trailing pen-up move)
happen exactly for characters that are rendered, i.e. in the glyph table
while the operation budget is not exhausted.  (The unamended claim fails:
the cursor advance sits inside the rendered branch, so a skipped character
does not advance the cursor.) -/
theorem claim_C5 (char_size start_y : ℚ) (target : ℕ) (ch : Char)
    (rest : List Char) (char_x : ℚ) (op : ℕ) :
    (char_patterns ch = none →
      text_loop char_size start_y target (ch :: rest) char_x op
        = text_loop char_size start_y target rest char_x op) ∧
    (∀ pattern, char_patterns ch = some pattern → op < target →
      text_loop char_size start_y target (ch :: rest) char_x op
        = (text_points char_size char_x start_y target pattern true op).1
          ++ [add_g0 PyField.null PyField.null (qv 2)]
          ++ text_loop char_size start_y target rest (char_x + char_size * (6/5))
               (text_points char_size char_x start_y target pattern true op).2) ∧
    (∀ pattern, char_patterns ch = some pattern → ¬ op < target →
      text_loop char_size start_y target (ch :: rest) char_x op
        = text_loop char_size start_y target rest char_x op) := by
  refine ⟨?_, ?_, ?_⟩
  · intro h
    conv_lhs => rw [text_loop]
    rw [h]
  · intro pattern h hop
    conv_lhs => rw [text_loop]
    rw [h]
    dsimp only
    rw [if_pos hop]
  · intro pattern h hop
    conv_lhs => rw [text_loop]
    rw [h]
    dsimp only
    rw [if_neg hop]

theorem claim_C5_witness :
    char_patterns 'q' = none ∧
    (text_loop 10 0 100 ['q'] 0 0 = text_loop 10 0 100 [] 0 0) ∧
    char_patterns 'h'
      = some [(0, 0), (0, 1), (0, 1/2), (1/5, 1/2), (2/5, 1/2), (2/5, 0)] ∧
    (0 : ℕ) < 100 ∧
    (text_loop 10 0 100 ['h'] 0 0
      = (text_points 10 0 0 100 [(0, 0), (0, 1), (0, 1/2), (1/5, 1/2), (2/5, 1/2),
          (2/5, 0)] true 0).1
        ++ [add_g0 PyField.null PyField.null (qv 2)]
        ++ text_loop 10 0 100 [] (0 + 10 * (6/5))
             (text_points 10 0 0 100 [(0, 0), (0, 1), (0, 1/2), (1/5, 1/2),
               (2/5, 1/2), (2/5, 0)] true 0).2) :=
  ⟨by decide, (claim_C5 10 0 100 'q' [] 0 0).1 (by decide), by decide, by decide,
   (claim_C5 10 0 100 'h' [] 0 0).2.1 _ (by decide) (by decide)⟩

/-- A text-engraving run over "ah": the `a` is unsupported. -/
def text_ah : List Command := generate_text_engraving ['a', 'h'] 0 0 10 100 20000

theorem claim_C5_counterexample :
    char_patterns 'a' = none ∧
    text_loop 10 0 100 ['a', 'h'] 0 0 = text_loop 10 0 100 ['h'] 0 0 ∧
    text_ah[3]?.map Command.x = some (PyField.num (PFloat.fin 0)) ∧
    (0 : ℚ) ≠ 0 + 10 * (6/5) :=
  ⟨rfl, by decide, by decide, by decide⟩

/- ## Grid generator analysis -/

theorem grid_cell_snd (sx sy step : ℚ) (i j op : ℕ) (h4 : op % 4 = 0) :
    (grid_cell sx sy step i j op).2 = op + 4 := by
  simp [grid_cell, h4]

theorem grid_cell_no_G2 (sx sy step : ℚ) (i j op : ℕ) (h4 : op % 4 = 0) :
    ∀ c ∈ (grid_cell sx sy step i j op).1, c.cmd ≠ "G2" := by
  intro c hc
  by_cases h0 : op = 0
  · simp [grid_cell, h4, h0] at hc
    rcases hc with h | h | h | h | h | h <;> subst h <;>
      simp only [add_g0, add_g1] <;> decide
  · simp [grid_cell, h4, h0] at hc
    rcases hc with h | h | h | h <;> subst h <;>
      simp only [add_g1] <;> decide

theorem grid_inner_op (sx sy step : ℚ) (target i : ℕ) :
    ∀ (js : List ℕ) (op : ℕ), op % 4 = 0 →
      (grid_inner sx sy step target i js op).2
        = if target ≤ op then op
          else min (op + 4 * js.length) (4 * ((target + 3) / 4)) := by
  intro js
  induction js with
  | nil =>
    intro op h4
    simp only [grid_inner, List.length_nil]
    split_ifs with h
    · rfl
    · simp only [mul_zero, add_zero]
      omega
  | cons j js ih =>
    intro op h4
    simp only [grid_inner, List.length_cons]
    by_cases h1 : target ≤ op
    · rw [if_pos h1, if_pos h1]
    · rw [if_neg h1, if_neg h1]
      rw [grid_cell_snd sx sy step i j op h4]
      by_cases h2 : target ≤ op + 4
      · rw [if_pos h2]
        omega
      · rw [if_neg h2]
        dsimp only
        rw [ih (op + 4) (by omega), if_neg h2]
        omega

theorem grid_inner_no_G2 (sx sy step : ℚ) (target i : ℕ) :
    ∀ (js : List ℕ) (op : ℕ), op % 4 = 0 →
      ∀ c ∈ (grid_inner sx sy step target i js op).1, c.cmd ≠ "G2" := by
  intro js
  induction js with
  | nil => intro op h4 c hc; simp [grid_inner] at hc
  | cons j js ih =>
    intro op h4 c hc
    simp only [grid_inner] at hc
    by_cases h1 : target ≤ op
    · rw [if_pos h1] at hc
      simp at hc
    · rw [if_neg h1] at hc
      rw [grid_cell_snd sx sy step i j op h4] at hc
      by_cases h2 : target ≤ op + 4
      · rw [if_pos h2] at hc
        exact grid_cell_no_G2 sx sy step i j op h4 c hc
      · rw [if_neg h2] at hc
        dsimp only at hc
        rcases List.mem_append.mp hc with h | h
        · exact grid_cell_no_G2 sx sy step i j op h4 c h
        · exact ih (op + 4) (by omega) c h

theorem grid_outer_op (sx sy step : ℚ) (target count : ℕ) :
    ∀ (irest : List ℕ) (op : ℕ), op % 4 = 0 →
      (grid_outer sx sy step target count irest op).2
        = if target ≤ op then op
          else min (op + 4 * (count * irest.length)) (4 * ((target + 3) / 4)) := by
  intro irest
  induction irest with
  | nil =>
    intro op h4
    simp only [grid_outer, List.length_nil]
    split_ifs with h
    · rfl
    · simp only [mul_zero, add_zero]
      omega
  | cons i irest ih =>
    intro op h4
    simp only [grid_outer, List.length_cons]
    rw [grid_inner_op sx sy step target i (List.range count) op h4, List.length_range]
    have hexp : count * (irest.length + 1) = count * irest.length + count := by ring
    by_cases h1 : target ≤ op
    · rw [if_pos h1, ih op h4, if_pos h1, if_pos h1]
    · rw [if_neg h1]
      set m := min (op + 4 * count) (4 * ((target + 3) / 4)) with hm
      have hm4 : m % 4 = 0 := by omega
      rw [ih m hm4]
      by_cases h2 : target ≤ m
      · rw [if_pos h2, if_neg h1, hexp]
        omega
      · rw [if_neg h2, if_neg h1, hexp]
        omega

theorem grid_outer_no_G2 (sx sy step : ℚ) (target count : ℕ) :
    ∀ (irest : List ℕ) (op : ℕ), op % 4 = 0 →
      ∀ c ∈ (grid_outer sx sy step target count irest op).1, c.cmd ≠ "G2" := by
  intro irest
  induction irest with
  | nil => intro op h4 c hc; simp [grid_outer] at hc
  | cons i irest ih =>
    intro op h4 c hc
    simp only [grid_outer] at hc
    rcases List.mem_append.mp hc with h | h
    · exact grid_inner_no_G2 sx sy step target i (List.range count) op h4 c h
    · have hin := grid_inner_op sx sy step target i (List.range count) op h4
      have h4b : (grid_inner sx sy step target i (List.range count) op).2 % 4 = 0 := by
        rw [hin]; split_ifs <;> omega
      exact ih _ h4b c h

theorem grid_run_op (sx sy size : ℚ) (count target : ℕ) :
    (grid_run sx sy size count target).2
      = if target ≤ 0 then 0
        else min (4 * (count * count)) (4 * ((target + 3) / 4)) := by
  unfold grid_run
  rw [grid_outer_op _ _ _ _ _ (List.range count) 0 (by decide), List.length_range]
  simp

/-- Claim C7: a grid run requesting 13 operations on a grid with at least
2×2 cells counts 16 operations — at least the requested 13 and fewer than
13 plus one pattern unit (8, the wave size): the only reachable pattern is
the 4-command square, so the counter stops at 16. -/
theorem claim_C7 (sx sy size : ℚ) (count : ℕ) (h : 2 ≤ count) :
    13 ≤ (grid_run sx sy size count 13).2 ∧
    (grid_run sx sy size count 13).2 < 13 + 8 := by
  rw [grid_run_op]
  have hcc : 4 ≤ count * count :=
    le_trans (by norm_num) (Nat.mul_le_mul h h)
  rw [if_neg (by decide)]
  omega

theorem claim_C7_witness :
    2 ≤ 2 ∧
    (13 ≤ (grid_run 10 10 80 2 13).2 ∧ (grid_run 10 10 80 2 13).2 < 13 + 8) :=
  ⟨by decide, claim_C7 10 10 80 2 (by decide)⟩

/-- Claim C6 (amended): the sub-pattern selector is `op_count % 4`, but since
the run starts at 0 and the selected square pattern adds exactly 4, the
selector stays 0 forever: the grid generator emits only square outlines and
never reaches the arc-circle, triangle or wave kinds (no `G2` arc command is
ever emitted); cell processing stops as soon as the cumulative count reaches
the target (final count within one square, i.e. less than `target + 4`) or
the `count × count` cells run out. -/
theorem claim_C6 (sx sy size : ℚ) (count target : ℕ) (speed : ℤ) :
    (∀ c ∈ generate_grid_pattern sx sy size count target speed, c.cmd ≠ "G2") ∧
    (grid_run sx sy size count target).2 % 4 = 0 ∧
    (grid_run sx sy size count target).2 < target + 4 ∧
    (target ≤ (grid_run sx sy size count target).2
      ∨ (grid_run sx sy size count target).2 = 4 * (count * count)) := by
  refine ⟨?_, ?_, ?_, ?_⟩
  · intro c hc
    unfold generate_grid_pattern at hc
    simp only [List.mem_append, List.mem_cons, List.mem_singleton,
      List.not_mem_nil, or_false] at hc
    rcases hc with ((h | h | h) | h) | h | h | h
    · subst h; simp only [add_comment]; decide
    · subst h; simp only [add_m3]; decide
    · subst h; simp only [add_dwell]; decide
    · exact grid_outer_no_G2 sx sy (size / (count : ℚ)) target count
        (List.range count) 0 (by decide) c h
    · subst h; simp only [add_g0]; decide
    · subst h; simp only [add_m5]; decide
    · subst h; simp only [add_raw]; decide
  · rw [grid_run_op]; split_ifs <;> omega
  · rw [grid_run_op]; split_ifs <;> omega
  · rw [grid_run_op]; split_ifs <;> omega

/-- A grid run large enough (16 cells) with a large target (60): it processes
15 cells, every one a square — no `G2` arc ever appears, refuting the claimed
cycling through all four sub-pattern kinds. -/
theorem claim_C6_counterexample :
    (grid_run 10 10 80 4 60).2 = 60 ∧
    (grid_run 10 10 80 4 60).1.countP (fun c => c.cmd == "G2") = 0 ∧
    (grid_run 10 10 80 4 60).1.countP (fun c => c.cmd == "G1") = 61 ∧
    (grid_run 10 10 80 4 60).1.countP (fun c => c.cmd == "G0") = 1 :=
  ⟨by decide, by decide, by decide, by decide⟩

/- ## Fractal generator analysis -/

theorem koch_count : ∀ (n : ℕ) (a b c d : ℚ),
    (koch_snowflake_segment a b c d n).2 = 4 ^ n ∧
    (koch_snowflake_segment a b c d n).1.length = 4 ^ n := by
  intro n
  induction n with
  | zero => intro a b c d; exact ⟨rfl, rfl⟩
  | succ n ih =>
    intro a b c d
    rw [koch_snowflake_segment]
    constructor
    · dsimp only
      rw [(ih _ _ _ _).1, (ih _ _ _ _).1, (ih _ _ _ _).1, (ih _ _ _ _).1, pow_succ]
      ring
    · dsimp only
      rw [List.length_append, List.length_append, List.length_append,
        (ih _ _ _ _).2, (ih _ _ _ _).2, (ih _ _ _ _).2, (ih _ _ _ _).2, pow_succ]
      ring

/-- Claim C8 (amended): each Koch segment at capped depth `d` terminates and
emits exactly `4 ^ d` motion segments; the per-segment depth cap is
`min(depth, floor(log2 remaining))` only when the remaining budget is at
least 2 — at a remaining budget of exactly 1 the code caps at
`min(depth, 1)`, not `min(depth, floor(log2 1)) = 0`; and the base-segment
loop stops emitting as soon as the cumulative segment count reaches the
target.  A request of 3 operations with requested depth 100 terminates after
a single base segment of 4 segments. -/
theorem claim_C8 :
    (∀ (a b c d : ℚ) (n : ℕ),
      (koch_snowflake_segment a b c d n).2 = 4 ^ n ∧
      (koch_snowflake_segment a b c d n).1.length = 4 ^ n) ∧
    (∀ depth r : ℕ,
      fractal_max_depth depth r = min depth (if 2 ≤ r then Nat.log2 r else 1)) ∧
    (∀ (x y size : ℚ) (depth target : ℕ) (l : List ℕ) (total : ℕ),
      target ≤ total → fractal_loop x y size depth target l total = ([], total)) ∧
    (fractal_run 0 0 1 100 3).2 = 4 := by
  refine ⟨fun a b c d n => koch_count n a b c d, ?_, ?_, by decide⟩
  · intro depth r
    unfold fractal_max_depth
    congr 1
    by_cases h : 1 < r
    · rw [if_pos h, if_pos (by omega : 2 ≤ r)]
      exact int_log2_eq_log2 r
    · rw [if_neg h, if_neg (by omega : ¬ 2 ≤ r)]
  · intro x y size depth target l total h
    cases l with
    | nil => rfl
    | cons i irest => simp only [fractal_loop]; rw [if_pos h]

theorem claim_C8_witness :
    (3 : ℕ) ≤ 5 ∧ fractal_loop 0 0 1 4 3 [2, 3] 5 = ([], 5) :=
  ⟨by decide, claim_C8.2.2.1 0 0 1 4 3 [2, 3] 5 (by decide)⟩

/-- A fractal run with requested depth 1 and operation count 5: the first
base segment emits 4 segments, leaving a remaining budget of exactly 1; the
code then uses depth cap `min(1, 1) = 1` while the claimed formula
`min(1, floor(log2 1))` is 0, so the second base segment emits 4 more
segments (total 8) instead of the single segment the claimed cap allows. -/
theorem claim_C8_counterexample :
    (fractal_loop 0 0 1 1 5 [0] 0).2 = 4 ∧
    fractal_max_depth 1 (5 - 4) = 1 ∧
    min 1 (Nat.log2 (5 - 4)) = 0 ∧
    ¬ fractal_max_depth 1 (5 - 4) ≤ min 1 (Nat.log2 (5 - 4)) ∧
    (fractal_run 0 0 1 1 5).2 = 8 :=
  ⟨by decide, by decide, by rw [← int_log2_eq_log2]; decide,
   by rw [← int_log2_eq_log2]; decide, by decide⟩

/- ## Scaled bounding-box analysis -/

theorem min_x_eq (cmds : List Command) (h : all_finite cmds = true) :
    min_x cmds = PFloat.fin (qMinD (qx_list cmds) 0) := by
  rw [min_x, x_vals_eq cmds h]
  exact pyMinD_fin _ _

theorem max_x_eq (cmds : List Command) (h : all_finite cmds = true) :
    max_x cmds = PFloat.fin (qMaxD (qx_list cmds) 0) := by
  rw [max_x, x_vals_eq cmds h]
  exact pyMaxD_fin _ _

theorem min_y_eq (cmds : List Command) (h : all_finite cmds = true) :
    min_y cmds = PFloat.fin (qMinD (qy_list cmds) 0) := by
  rw [min_y, y_vals_eq cmds h]
  exact pyMinD_fin _ _

theorem max_y_eq (cmds : List Command) (h : all_finite cmds = true) :
    max_y cmds = PFloat.fin (qMaxD (qy_list cmds) 0) := by
  rw [max_y, y_vals_eq cmds h]
  exact pyMaxD_fin _ _

theorem min_z_eq (cmds : List Command) (h : all_finite cmds = true) :
    min_z cmds = PFloat.fin (qMinD (qz_list cmds) 0) := by
  rw [min_z, z_vals_eq cmds h]
  exact pyMinD_fin _ _

theorem max_z_eq (cmds : List Command) (h : all_finite cmds = true) :
    max_z cmds = PFloat.fin (qMaxD (qz_list cmds) 0) := by
  rw [max_z, z_vals_eq cmds h]
  exact pyMaxD_fin _ _

/-- Extent of a mapped-and-affinely-rescaled nonempty rational value list. -/
theorem extent_affine (m s : ℚ) (hs : 0 < s) (q0 : ℚ) (qs : List ℚ) :
    qMaxD ((q0 :: qs).map (fun q => (q - m) * s)) 0
      - qMinD ((q0 :: qs).map (fun q => (q - m) * s)) 0
      = (qMaxD (q0 :: qs) 0 - qMinD (q0 :: qs) 0) * s := by
  simp only [List.map_cons, qMaxD, qMinD]
  rw [foldl_min_affine m s hs qs q0, foldl_max_affine m s hs qs q0]
  ring

/-- The rescaled value lists of the transformed sequence, rationally. -/
theorem x_vals_out (cmds : List Command) (hfin : all_finite cmds = true) (sq : ℚ) :
    x_vals (cmds.map (transform_command (min_x cmds) (min_y cmds) (min_z cmds)
        (PFloat.fin sq)))
      = ((qx_list cmds).map
          (fun q => (q - qMinD (qx_list cmds) 0) * sq)).map PFloat.fin := by
  rw [x_vals_transform, x_vals_eq cmds hfin, min_x_eq cmds hfin, List.map_map,
    show ((fun v => PFloat.mul (PFloat.sub v (PFloat.fin (qMinD (qx_list cmds) 0)))
        (PFloat.fin sq)) ∘ PFloat.fin)
      = (PFloat.fin ∘ fun q => (q - qMinD (qx_list cmds) 0) * sq) from rfl,
    ← List.map_map]

theorem y_vals_out (cmds : List Command) (hfin : all_finite cmds = true) (sq : ℚ) :
    y_vals (cmds.map (transform_command (min_x cmds) (min_y cmds) (min_z cmds)
        (PFloat.fin sq)))
      = ((qy_list cmds).map
          (fun q => (q - qMinD (qy_list cmds) 0) * sq)).map PFloat.fin := by
  rw [y_vals_transform, y_vals_eq cmds hfin, min_y_eq cmds hfin, List.map_map,
    show ((fun v => PFloat.mul (PFloat.sub v (PFloat.fin (qMinD (qy_list cmds) 0)))
        (PFloat.fin sq)) ∘ PFloat.fin)
      = (PFloat.fin ∘ fun q => (q - qMinD (qy_list cmds) 0) * sq) from rfl,
    ← List.map_map]

theorem z_vals_out (cmds : List Command) (hfin : all_finite cmds = true) (sq : ℚ) :
    z_vals (cmds.map (transform_command (min_x cmds) (min_y cmds) (min_z cmds)
        (PFloat.fin sq)))
      = ((qz_list cmds).map
          (fun q => (q - qMinD (qz_list cmds) 0) * sq)).map PFloat.fin := by
  rw [z_vals_transform, z_vals_eq cmds hfin, min_z_eq cmds hfin, List.map_map,
    show ((fun v => PFloat.mul (PFloat.sub v (PFloat.fin (qMinD (qz_list cmds) 0)))
        (PFloat.fin sq)) ∘ PFloat.fin)
      = (PFloat.fin ∘ fun q => (q - qMinD (qz_list cmds) 0) * sq) from rfl,
    ← List.map_map]

theorem PFloat.sub_fin (a b : ℚ) :
    PFloat.sub (PFloat.fin a) (PFloat.fin b) = PFloat.fin (a - b) := rfl

theorem min_x_out (cmds : List Command) (hfin : all_finite cmds = true) (sq : ℚ) :
    min_x (cmds.map (transform_command (min_x cmds) (min_y cmds) (min_z cmds)
        (PFloat.fin sq)))
      = PFloat.fin (qMinD ((qx_list cmds).map
          (fun q => (q - qMinD (qx_list cmds) 0) * sq)) 0) := by
  show pyMinD (x_vals (cmds.map (transform_command (min_x cmds) (min_y cmds)
      (min_z cmds) (PFloat.fin sq)))) (PFloat.fin 0) = _
  rw [x_vals_out cmds hfin sq, pyMinD_fin]

theorem max_x_out (cmds : List Command) (hfin : all_finite cmds = true) (sq : ℚ) :
    max_x (cmds.map (transform_command (min_x cmds) (min_y cmds) (min_z cmds)
        (PFloat.fin sq)))
      = PFloat.fin (qMaxD ((qx_list cmds).map
          (fun q => (q - qMinD (qx_list cmds) 0) * sq)) 0) := by
  show pyMaxD (x_vals (cmds.map (transform_command (min_x cmds) (min_y cmds)
      (min_z cmds) (PFloat.fin sq)))) (PFloat.fin 0) = _
  rw [x_vals_out cmds hfin sq, pyMaxD_fin]

theorem min_y_out (cmds : List Command) (hfin : all_finite cmds = true) (sq : ℚ) :
    min_y (cmds.map (transform_command (min_x cmds) (min_y cmds) (min_z cmds)
        (PFloat.fin sq)))
      = PFloat.fin (qMinD ((qy_list cmds).map
          (fun q => (q - qMinD (qy_list cmds) 0) * sq)) 0) := by
  show pyMinD (y_vals (cmds.map (transform_command (min_x cmds) (min_y cmds)
      (min_z cmds) (PFloat.fin sq)))) (PFloat.fin 0) = _
  rw [y_vals_out cmds hfin sq, pyMinD_fin]

theorem max_y_out (cmds : List Command) (hfin : all_finite cmds = true) (sq : ℚ) :
    max_y (cmds.map (transform_command (min_x cmds) (min_y cmds) (min_z cmds)
        (PFloat.fin sq)))
      = PFloat.fin (qMaxD ((qy_list cmds).map
          (fun q => (q - qMinD (qy_list cmds) 0) * sq)) 0) := by
  show pyMaxD (y_vals (cmds.map (transform_command (min_x cmds) (min_y cmds)
      (min_z cmds) (PFloat.fin sq)))) (PFloat.fin 0) = _
  rw [y_vals_out cmds hfin sq, pyMaxD_fin]

theorem min_z_out (cmds : List Command) (hfin : all_finite cmds = true) (sq : ℚ) :
    min_z (cmds.map (transform_command (min_x cmds) (min_y cmds) (min_z cmds)
        (PFloat.fin sq)))
      = PFloat.fin (qMinD ((qz_list cmds).map
          (fun q => (q - qMinD (qz_list cmds) 0) * sq)) 0) := by
  show pyMinD (z_vals (cmds.map (transform_command (min_x cmds) (min_y cmds)
      (min_z cmds) (PFloat.fin sq)))) (PFloat.fin 0) = _
  rw [z_vals_out cmds hfin sq, pyMinD_fin]

theorem max_z_out (cmds : List Command) (hfin : all_finite cmds = true) (sq : ℚ) :
    max_z (cmds.map (transform_command (min_x cmds) (min_y cmds) (min_z cmds)
        (PFloat.fin sq)))
      = PFloat.fin (qMaxD ((qz_list cmds).map
          (fun q => (q - qMinD (qz_list cmds) 0) * sq)) 0) := by
  show pyMaxD (z_vals (cmds.map (transform_command (min_x cmds) (min_y cmds)
      (min_z cmds) (PFloat.fin sq)))) (PFloat.fin 0) = _
  rw [z_vals_out cmds hfin sq, pyMaxD_fin]

/-- Re-derived x extent of the transformed sequence on a nonempty value list. -/
theorem original_width_out (cmds : List Command) (hfin : all_finite cmds = true)
    (sq : ℚ) (hs : 0 < sq) (hne : qx_list cmds ≠ []) :
    original_width (cmds.map (transform_command (min_x cmds) (min_y cmds)
        (min_z cmds) (PFloat.fin sq)))
      = PFloat.fin ((qMaxD (qx_list cmds) 0 - qMinD (qx_list cmds) 0) * sq) := by
  obtain ⟨q0, qs, hq⟩ := List.exists_cons_of_ne_nil hne
  rw [original_width, max_x_out cmds hfin sq, min_x_out cmds hfin sq,
    PFloat.sub_fin, hq, extent_affine _ _ hs]

/-- Re-derived y extent of the transformed sequence on a nonempty value list. -/
theorem original_depth_out (cmds : List Command) (hfin : all_finite cmds = true)
    (sq : ℚ) (hs : 0 < sq) (hne : qy_list cmds ≠ []) :
    original_depth (cmds.map (transform_command (min_x cmds) (min_y cmds)
        (min_z cmds) (PFloat.fin sq)))
      = PFloat.fin ((qMaxD (qy_list cmds) 0 - qMinD (qy_list cmds) 0) * sq) := by
  obtain ⟨q0, qs, hq⟩ := List.exists_cons_of_ne_nil hne
  rw [original_depth, max_y_out cmds hfin sq, min_y_out cmds hfin sq,
    PFloat.sub_fin, hq, extent_affine _ _ hs]

/-- Re-derived z extent of the transformed sequence on a nonempty value list. -/
theorem original_height_out (cmds : List Command) (hfin : all_finite cmds = true)
    (sq : ℚ) (hs : 0 < sq) (hne : qz_list cmds ≠ []) :
    original_height (cmds.map (transform_command (min_x cmds) (min_y cmds)
        (min_z cmds) (PFloat.fin sq)))
      = PFloat.fin ((qMaxD (qz_list cmds) 0 - qMinD (qz_list cmds) 0) * sq) := by
  obtain ⟨q0, qs, hq⟩ := List.exists_cons_of_ne_nil hne
  rw [original_height, max_z_out cmds hfin sq, min_z_out cmds hfin sq,
    PFloat.sub_fin, hq, extent_affine _ _ hs]

theorem scale_factor_no_coords (env : WorkEnvelope) (cmds : List Command)
    (hc : coords cmds = []) : scale_factor env cmds = some PFloat.inf := by
  have hx : x_vals cmds = [] := by rw [x_vals, hc]; rfl
  have hy : y_vals cmds = [] := by rw [y_vals, hc]; rfl
  have hz : z_vals cmds = [] := by rw [z_vals, hc]; rfl
  have hw : original_width cmds = PFloat.fin 0 := by
    rw [original_width, max_x, min_x, hx]
    show PFloat.sub (PFloat.fin 0) (PFloat.fin 0) = PFloat.fin 0
    rw [PFloat.sub_fin]; norm_num
  have hd : original_depth cmds = PFloat.fin 0 := by
    rw [original_depth, max_y, min_y, hy]
    show PFloat.sub (PFloat.fin 0) (PFloat.fin 0) = PFloat.fin 0
    rw [PFloat.sub_fin]; norm_num
  have hh : original_height cmds = PFloat.fin 0 := by
    rw [original_height, max_z, min_z, hz]
    show PFloat.sub (PFloat.fin 0) (PFloat.fin 0) = PFloat.fin 0
    rw [PFloat.sub_fin]; norm_num
  have hsx : scale_x env cmds = PFloat.inf := by
    rw [scale_x_def]
    exact scale_axis_of_le _ _ _ hw (by norm_num [epsGuard])
  have hsy : scale_y env cmds = PFloat.inf := by
    rw [scale_y_def]
    exact scale_axis_of_le _ _ _ hd (by norm_num [epsGuard])
  have hsz : scale_z env cmds = PFloat.inf := by
    rw [scale_z_def]
    exact scale_axis_of_le _ _ _ hh (by norm_num [epsGuard])
  unfold scale_factor
  rw [hsx, hsy, hsz]
  decide

/-- Claim C2 (amended): when the scaler derives a finite scale factor on a
finite-coordinate sequence in a positive envelope, the transform runs, one of
the three axis candidates equals the scale factor, re-deriving a determining
axis's extent on the scaled output gives exactly that axis's envelope
dimension, and every axis whose extent exceeds the `1e-6` threshold has a
scaled extent of `extent * scale_factor`, which does not exceed its envelope
dimension.  (The unamended claim fails for excluded axes: an axis whose
extent is positive but at most `1e-6` contributes an infinite candidate and
its scaled extent can exceed an arbitrarily small envelope dimension.) -/
theorem claim_C2 (env : WorkEnvelope) (cmds : List Command) (sq : ℚ)
    (hfin : all_finite cmds = true) (hW : 0 < env.width) (hD : 0 < env.depth)
    (hH : 0 < env.height)
    (hs : scale_factor env cmds = some (PFloat.fin sq)) :
    scaled_commands env cmds
      = some (cmds.map (transform_command (min_x cmds) (min_y cmds) (min_z cmds)
          (PFloat.fin sq))) ∧
    (scale_x env cmds = PFloat.fin sq ∨ scale_y env cmds = PFloat.fin sq
      ∨ scale_z env cmds = PFloat.fin sq) ∧
    (scale_x env cmds = PFloat.fin sq →
      original_width (cmds.map (transform_command (min_x cmds) (min_y cmds)
        (min_z cmds) (PFloat.fin sq))) = PFloat.fin env.width) ∧
    (scale_y env cmds = PFloat.fin sq →
      original_depth (cmds.map (transform_command (min_x cmds) (min_y cmds)
        (min_z cmds) (PFloat.fin sq))) = PFloat.fin env.depth) ∧
    (scale_z env cmds = PFloat.fin sq →
      original_height (cmds.map (transform_command (min_x cmds) (min_y cmds)
        (min_z cmds) (PFloat.fin sq))) = PFloat.fin env.height) ∧
    (∀ wq : ℚ, original_width cmds = PFloat.fin wq → epsGuard < wq →
      original_width (cmds.map (transform_command (min_x cmds) (min_y cmds)
        (min_z cmds) (PFloat.fin sq))) = PFloat.fin (wq * sq)
      ∧ wq * sq ≤ env.width) ∧
    (∀ wq : ℚ, original_depth cmds = PFloat.fin wq → epsGuard < wq →
      original_depth (cmds.map (transform_command (min_x cmds) (min_y cmds)
        (min_z cmds) (PFloat.fin sq))) = PFloat.fin (wq * sq)
      ∧ wq * sq ≤ env.depth) ∧
    (∀ wq : ℚ, original_height cmds = PFloat.fin wq → epsGuard < wq →
      original_height (cmds.map (transform_command (min_x cmds) (min_y cmds)
        (min_z cmds) (PFloat.fin sq))) = PFloat.fin (wq * sq)
      ∧ wq * sq ≤ env.height) := by
  obtain ⟨v, heq, hvpos, hvmem, hvnot⟩ :=
    scale_factor_exists_pos env cmds hfin hW hD hH
  rw [heq] at hs
  obtain rfl : v = PFloat.fin sq := Option.some.inj hs
  have hsq : 0 < sq := by simpa [PFloat.lt] using hvpos
  have hcne : (coords cmds).isEmpty = false := by
    cases hcc : coords cmds with
    | nil =>
      exfalso
      have hinf := scale_factor_no_coords env cmds hcc
      rw [hinf] at heq
      simp at heq
    | cons a l => rfl
  have hWe := original_width_eq cmds hfin
  have hDe := original_depth_eq cmds hfin
  have hHe := original_height_eq cmds hfin
  have hne_x : epsGuard < qMaxD (qx_list cmds) 0 - qMinD (qx_list cmds) 0 →
      qx_list cmds ≠ [] := by
    intro hg hnil
    rw [hnil] at hg
    norm_num [qMaxD, qMinD, epsGuard] at hg
  have hne_y : epsGuard < qMaxD (qy_list cmds) 0 - qMinD (qy_list cmds) 0 →
      qy_list cmds ≠ [] := by
    intro hg hnil
    rw [hnil] at hg
    norm_num [qMaxD, qMinD, epsGuard] at hg
  have hne_z : epsGuard < qMaxD (qz_list cmds) 0 - qMinD (qz_list cmds) 0 →
      qz_list cmds ≠ [] := by
    intro hg hnil
    rw [hnil] at hg
    norm_num [qMaxD, qMinD, epsGuard] at hg
  refine ⟨?_, ?_, ?_, ?_, ?_, ?_, ?_, ?_⟩
  · unfold scaled_commands
    rw [if_neg (by simp [hcne]), heq]
  · rcases hvmem with h | h | h
    · exact Or.inl h.symm
    · exact Or.inr (Or.inl h.symm)
    · exact Or.inr (Or.inr h.symm)
  · intro hax
    rw [scale_x_def, hWe] at hax
    by_cases hg : epsGuard < qMaxD (qx_list cmds) 0 - qMinD (qx_list cmds) 0
    · rw [if_pos (by simpa [PFloat.lt] using hg)] at hax
      have hsq2 : env.width / (qMaxD (qx_list cmds) 0 - qMinD (qx_list cmds) 0)
          = sq := by
        simpa [PFloat.div] using hax
      have hWpos : 0 < qMaxD (qx_list cmds) 0 - qMinD (qx_list cmds) 0 :=
        lt_trans (by norm_num [epsGuard]) hg
      rw [original_width_out cmds hfin sq hsq (hne_x hg), ← hsq2, mul_comm,
        div_mul_cancel₀ _ hWpos.ne']
    · rw [if_neg (by simpa [PFloat.lt] using hg)] at hax
      simp at hax
  · intro hax
    rw [scale_y_def, hDe] at hax
    by_cases hg : epsGuard < qMaxD (qy_list cmds) 0 - qMinD (qy_list cmds) 0
    · rw [if_pos (by simpa [PFloat.lt] using hg)] at hax
      have hsq2 : env.depth / (qMaxD (qy_list cmds) 0 - qMinD (qy_list cmds) 0)
          = sq := by
        simpa [PFloat.div] using hax
      have hWpos : 0 < qMaxD (qy_list cmds) 0 - qMinD (qy_list cmds) 0 :=
        lt_trans (by norm_num [epsGuard]) hg
      rw [original_depth_out cmds hfin sq hsq (hne_y hg), ← hsq2, mul_comm,
        div_mul_cancel₀ _ hWpos.ne']
    · rw [if_neg (by simpa [PFloat.lt] using hg)] at hax
      simp at hax
  · intro hax
    rw [scale_z_def, hHe] at hax
    by_cases hg : epsGuard < qMaxD (qz_list cmds) 0 - qMinD (qz_list cmds) 0
    · rw [if_pos (by simpa [PFloat.lt] using hg)] at hax
      have hsq2 : env.height / (qMaxD (qz_list cmds) 0 - qMinD (qz_list cmds) 0)
          = sq := by
        simpa [PFloat.div] using hax
      have hWpos : 0 < qMaxD (qz_list cmds) 0 - qMinD (qz_list cmds) 0 :=
        lt_trans (by norm_num [epsGuard]) hg
      rw [original_height_out cmds hfin sq hsq (hne_z hg), ← hsq2, mul_comm,
        div_mul_cancel₀ _ hWpos.ne']
    · rw [if_neg (by simpa [PFloat.lt] using hg)] at hax
      simp at hax
  · intro wq hweq hgt
    rw [hWe] at hweq
    obtain rfl : qMaxD (qx_list cmds) 0 - qMinD (qx_list cmds) 0 = wq := by
      injection hweq
    have hWpos : 0 < qMaxD (qx_list cmds) 0 - qMinD (qx_list cmds) 0 :=
      lt_trans (by norm_num [epsGuard]) hgt
    refine ⟨original_width_out cmds hfin sq hsq (hne_x hgt), ?_⟩
    have hcand : scale_x env cmds
        = PFloat.fin (env.width / (qMaxD (qx_list cmds) 0 - qMinD (qx_list cmds) 0)) := by
      rw [scale_x_def]
      exact scale_axis_of_gt _ _ _ hWe hgt
    have hnotlt := hvnot (scale_x env cmds) (List.mem_cons_self _ _)
    rw [hcand] at hnotlt
    simp only [PFloat.lt, decide_eq_true_eq, decide_eq_false_iff_not] at hnotlt
    have hle : sq ≤ env.width / (qMaxD (qx_list cmds) 0 - qMinD (qx_list cmds) 0) :=
      not_lt.mp hnotlt
    calc (qMaxD (qx_list cmds) 0 - qMinD (qx_list cmds) 0) * sq
        ≤ (qMaxD (qx_list cmds) 0 - qMinD (qx_list cmds) 0)
            * (env.width / (qMaxD (qx_list cmds) 0 - qMinD (qx_list cmds) 0)) :=
          mul_le_mul_of_nonneg_left hle hWpos.le
      _ = env.width := by rw [mul_comm, div_mul_cancel₀ _ hWpos.ne']
  · intro wq hweq hgt
    rw [hDe] at hweq
    obtain rfl : qMaxD (qy_list cmds) 0 - qMinD (qy_list cmds) 0 = wq := by
      injection hweq
    have hWpos : 0 < qMaxD (qy_list cmds) 0 - qMinD (qy_list cmds) 0 :=
      lt_trans (by norm_num [epsGuard]) hgt
    refine ⟨original_depth_out cmds hfin sq hsq (hne_y hgt), ?_⟩
    have hcand : scale_y env cmds
        = PFloat.fin (env.depth / (qMaxD (qy_list cmds) 0 - qMinD (qy_list cmds) 0)) := by
      rw [scale_y_def]
      exact scale_axis_of_gt _ _ _ hDe hgt
    have hnotlt := hvnot (scale_y env cmds)
      (List.mem_cons_of_mem _ (List.mem_cons_self _ _))
    rw [hcand] at hnotlt
    simp only [PFloat.lt, decide_eq_true_eq, decide_eq_false_iff_not] at hnotlt
    have hle : sq ≤ env.depth / (qMaxD (qy_list cmds) 0 - qMinD (qy_list cmds) 0) :=
      not_lt.mp hnotlt
    calc (qMaxD (qy_list cmds) 0 - qMinD (qy_list cmds) 0) * sq
        ≤ (qMaxD (qy_list cmds) 0 - qMinD (qy_list cmds) 0)
            * (env.depth / (qMaxD (qy_list cmds) 0 - qMinD (qy_list cmds) 0)) :=
          mul_le_mul_of_nonneg_left hle hWpos.le
      _ = env.depth := by rw [mul_comm, div_mul_cancel₀ _ hWpos.ne']
  · intro wq hweq hgt
    rw [hHe] at hweq
    obtain rfl : qMaxD (qz_list cmds) 0 - qMinD (qz_list cmds) 0 = wq := by
      injection hweq
    have hWpos : 0 < qMaxD (qz_list cmds) 0 - qMinD (qz_list cmds) 0 :=
      lt_trans (by norm_num [epsGuard]) hgt
    refine ⟨original_height_out cmds hfin sq hsq (hne_z hgt), ?_⟩
    have hcand : scale_z env cmds
        = PFloat.fin (env.height / (qMaxD (qz_list cmds) 0 - qMinD (qz_list cmds) 0)) := by
      rw [scale_z_def]
      exact scale_axis_of_gt _ _ _ hHe hgt
    have hnotlt := hvnot (scale_z env cmds)
      (List.mem_cons_of_mem _ (List.mem_cons_of_mem _ (List.mem_cons_self _ _)))
    rw [hcand] at hnotlt
    simp only [PFloat.lt, decide_eq_true_eq, decide_eq_false_iff_not] at hnotlt
    have hle : sq ≤ env.height / (qMaxD (qz_list cmds) 0 - qMinD (qz_list cmds) 0) :=
      not_lt.mp hnotlt
    calc (qMaxD (qz_list cmds) 0 - qMinD (qz_list cmds) 0) * sq
        ≤ (qMaxD (qz_list cmds) 0 - qMinD (qz_list cmds) 0)
            * (env.height / (qMaxD (qz_list cmds) 0 - qMinD (qz_list cmds) 0)) :=
          mul_le_mul_of_nonneg_left hle hWpos.le
      _ = env.height := by rw [mul_comm, div_mul_cancel₀ _ hWpos.ne']

theorem claim_C2_witness :
    all_finite c3w = true ∧ (0:ℚ) < envelope_default.width ∧
    (0:ℚ) < envelope_default.depth ∧ (0:ℚ) < envelope_default.height ∧
    scale_factor envelope_default c3w = some (PFloat.fin (172/7)) ∧
    (scaled_commands envelope_default c3w
      = some (c3w.map (transform_command (min_x c3w) (min_y c3w) (min_z c3w)
          (PFloat.fin (172/7)))) ∧
    (scale_x envelope_default c3w = PFloat.fin (172/7)
      ∨ scale_y envelope_default c3w = PFloat.fin (172/7)
      ∨ scale_z envelope_default c3w = PFloat.fin (172/7)) ∧
    (scale_x envelope_default c3w = PFloat.fin (172/7) →
      original_width (c3w.map (transform_command (min_x c3w) (min_y c3w)
        (min_z c3w) (PFloat.fin (172/7)))) = PFloat.fin envelope_default.width) ∧
    (scale_y envelope_default c3w = PFloat.fin (172/7) →
      original_depth (c3w.map (transform_command (min_x c3w) (min_y c3w)
        (min_z c3w) (PFloat.fin (172/7)))) = PFloat.fin envelope_default.depth) ∧
    (scale_z envelope_default c3w = PFloat.fin (172/7) →
      original_height (c3w.map (transform_command (min_x c3w) (min_y c3w)
        (min_z c3w) (PFloat.fin (172/7)))) = PFloat.fin envelope_default.height) ∧
    (∀ wq : ℚ, original_width c3w = PFloat.fin wq → epsGuard < wq →
      original_width (c3w.map (transform_command (min_x c3w) (min_y c3w)
        (min_z c3w) (PFloat.fin (172/7)))) = PFloat.fin (wq * (172/7))
      ∧ wq * (172/7) ≤ envelope_default.width) ∧
    (∀ wq : ℚ, original_depth c3w = PFloat.fin wq → epsGuard < wq →
      original_depth (c3w.map (transform_command (min_x c3w) (min_y c3w)
        (min_z c3w) (PFloat.fin (172/7)))) = PFloat.fin (wq * (172/7))
      ∧ wq * (172/7) ≤ envelope_default.depth) ∧
    (∀ wq : ℚ, original_height c3w = PFloat.fin wq → epsGuard < wq →
      original_height (c3w.map (transform_command (min_x c3w) (min_y c3w)
        (min_z c3w) (PFloat.fin (172/7)))) = PFloat.fin (wq * (172/7))
      ∧ wq * (172/7) ≤ envelope_default.height)) :=
  ⟨by decide, by decide, by decide, by decide, by decide,
   claim_C2 envelope_default c3w (172/7) (by decide) (by decide) (by decide)
     (by decide) (by decide)⟩

/-- The grid generator with `size = 1/250000`, `count = 2`, target 4 produces
one square cell whose x and y extents are exactly `1e-6` — at the exclusion
threshold — while the plunge and retract give a z extent of 26.  Under the
envelope `(1e-9, 172, 38)` (all dimensions positive) the scale factor is
`38/26 = 19/13` and the re-derived x extent of the scaled output is
`19/13000000`, which exceeds the envelope width `1e-9`: an excluded axis's
scaled extent can exceed its envelope dimension. -/
theorem claim_C2_counterexample :
    (0:ℚ) < 1/1000000000 ∧ (0:ℚ) < 172 ∧ (0:ℚ) < 38 ∧
    (scaled_commands ⟨1/1000000000, 172, 38⟩
        (generate_grid_pattern 0 0 (1/250000) 2 4 20000)).map original_width
      = some (PFloat.fin (19/13000000)) ∧
    (1/1000000000 : ℚ) < 19/13000000 :=
  ⟨by decide, by decide, by decide, by decide, by decide⟩
